import Mathlib

/-!
Verification of the open-voice evaluation harness.

This file gives a shallow embedding, into Lean, of the harness components of
the repository (fixture streaming, WER scoring, the WAV codec helpers, the
audio comparator, the latency measurer and the conversation runner), and
proves or refutes the specified properties about them.

Conventions of the embedding:
* byte buffers (`ArrayBuffer`) are `List Nat` with entries below 256;
* JavaScript numbers are modelled as exact arithmetic (`ℚ`, or `ℝ` where the
  source computes square roots or trigonometric sums);
* fallible operations return `Option` or `Except`;
* generator loops whose termination depends on runtime data take an explicit
  fuel argument, with `none` modelling divergence.
-/

namespace AudioLoader

/-- Model of `buffer.slice(a, b)` for `a ≤ b`: the bytes of positions
`a, …, b-1`. -/
def sliceBytes (data : List Nat) (a b : Nat) : List Nat :=
  (data.drop a).take (b - a)

/-- The bytes-per-millisecond quantity of `streamAudio`:
`sampleRate * (bitDepth / 8) * channels / 1000`, as an exact rational. -/
def bytesPerMs (sampleRate bitDepth channels : Nat) : ℚ :=
  ((sampleRate : ℚ) * ((bitDepth : ℚ) / 8) * (channels : ℚ)) / 1000

/-- The chunk size of `streamAudio`: `Math.floor(bytesPerMs * chunkDurationMs)`. -/
def chunkSizeOf (sampleRate bitDepth channels : Nat) (chunkDurationMs : ℚ) : Nat :=
  (⌊bytesPerMs sampleRate bitDepth channels * chunkDurationMs⌋).toNat

/-- The chunk loop of `AudioFixtureLoader.streamAudio`:
`for (let offset = startByte; offset < endByte; offset += chunkSize) yield
audioData.slice(offset, Math.min(offset + chunkSize, endByte))`.
The loop does not terminate when `chunkSize = 0` and `offset < endByte`;
the fuel argument makes the embedding total, `none` modelling divergence. -/
def streamChunks (data : List Nat) (chunkSize endByte : Nat) :
    (fuel offset : Nat) → Option (List (List Nat))
  | 0, offset => if offset < endByte then none else some []
  | fuel + 1, offset =>
    if offset < endByte then
      match streamChunks data chunkSize endByte fuel (offset + chunkSize) with
      | some rest =>
          some (sliceBytes data offset (min (offset + chunkSize) endByte) :: rest)
      | none => none
    else some []

/-- `AudioFixtureLoader.streamAudio` over the full payload range (default
options `startOffset = 0`, `endOffset` undefined): the audio data is the
buffer with the 44-byte header skipped, and the chunk size comes from the
fixture parameters. -/
def streamAudio (buffer : List Nat) (sampleRate bitDepth channels : Nat)
    (chunkDurationMs : ℚ) (fuel : Nat) : Option (List (List Nat)) :=
  let audioData := buffer.drop 44
  streamChunks audioData (chunkSizeOf sampleRate bitDepth channels chunkDurationMs)
    audioData.length fuel 0

lemma streamChunks_chunkSize_zero (data : List Nat) (endByte offset : Nat)
    (h : offset < endByte) :
    ∀ fuel, streamChunks data 0 endByte fuel offset = none := by
  intro fuel
  induction fuel with
  | zero => simp [streamChunks, h]
  | succ n ih => simp [streamChunks, h, ih]

lemma streamChunks_spec (data : List Nat) (chunkSize endByte : Nat)
    (h : 1 ≤ chunkSize) :
    ∀ fuel offset, endByte - offset ≤ fuel →
      ∃ cs, streamChunks data chunkSize endByte fuel offset = some cs ∧
        cs.flatten = (data.drop offset).take (endByte - offset) := by
  intro fuel
  induction fuel with
  | zero =>
    intro offset hfuel
    have : ¬ offset < endByte := by omega
    refine ⟨[], ?_, ?_⟩
    · simp [streamChunks, this]
    · have : endByte - offset = 0 := by omega
      simp [this]
  | succ n ih =>
    intro offset hfuel
    by_cases hlt : offset < endByte
    · obtain ⟨rest, hrest, hjoin⟩ :=
        ih (offset + chunkSize) (by omega)
      refine ⟨sliceBytes data offset (min (offset + chunkSize) endByte) :: rest, ?_, ?_⟩
      · simp [streamChunks, hlt, hrest]
      · have hdrop : data.drop (offset + chunkSize) = (data.drop offset).drop chunkSize := by
          rw [List.drop_drop]
        rw [List.flatten_cons, hjoin, hdrop]
        have hmin : min (offset + chunkSize) endByte - offset
            = min chunkSize (endByte - offset) := by omega
        rw [sliceBytes, hmin]
        rcases le_or_lt (endByte - offset) chunkSize with hk | hk
        · have h1 : min chunkSize (endByte - offset) = endByte - offset := by omega
          have h2 : endByte - (offset + chunkSize) = 0 := by omega
          simp [h1, h2]
        · have h1 : min chunkSize (endByte - offset) = chunkSize := by omega
          have h2 : endByte - offset = chunkSize + (endByte - (offset + chunkSize)) := by
            omega
          rw [h1, h2, List.take_add]
    · refine ⟨[], ?_, ?_⟩
      · simp [streamChunks, hlt]
      · have : endByte - offset = 0 := by omega
        simp [this]

/-- C1 (amended): whenever the computed chunk size
`floor(bytesPerMs * chunkDurationMs)` is at least one byte, the chunk
sequence produced by `streamAudio` over the full payload range is finite
(the loop yields within `payload-length` steps of fuel), reassembling the
chunks reproduces the payload exactly, and the chunk byte-lengths sum to the
payload length exactly — no byte dropped and none duplicated, the final short
chunk included. -/
theorem streamAudio_total_bytes (buffer : List Nat)
    (sampleRate bitDepth channels : Nat) (chunkDurationMs : ℚ)
    (h : 1 ≤ chunkSizeOf sampleRate bitDepth channels chunkDurationMs) :
    ∃ cs, streamAudio buffer sampleRate bitDepth channels chunkDurationMs
        (buffer.drop 44).length = some cs ∧
      cs.flatten = buffer.drop 44 ∧
      (cs.map List.length).sum = (buffer.drop 44).length := by
  obtain ⟨cs, hcs, hjoin⟩ :=
    streamChunks_spec (buffer.drop 44)
      (chunkSizeOf sampleRate bitDepth channels chunkDurationMs)
      (buffer.drop 44).length h (buffer.drop 44).length 0 (by omega)
  rw [List.drop_zero, Nat.sub_zero, List.take_length] at hjoin
  refine ⟨cs, hcs, hjoin, ?_⟩
  have hlen : cs.flatten.length = (cs.map List.length).sum := List.length_flatten cs
  rw [← hlen, hjoin]

/-- Witness for `streamAudio_total_bytes` at a concrete canonical fixture
(16 kHz, 16-bit, mono, 100 ms chunks, 3 payload bytes). -/
theorem streamAudio_total_bytes_witness :
    1 ≤ chunkSizeOf 16000 16 1 100 ∧
    ∃ cs, streamAudio (List.replicate 44 0 ++ [1, 2, 3]) 16000 16 1 100
        ((List.replicate 44 0 ++ [1, 2, 3]).drop 44).length = some cs ∧
      cs.flatten = (List.replicate 44 0 ++ [1, 2, 3]).drop 44 ∧
      (cs.map List.length).sum = ((List.replicate 44 0 ++ [1, 2, 3]).drop 44).length := by
  have h : 1 ≤ chunkSizeOf 16000 16 1 100 := by
    norm_num [chunkSizeOf, bytesPerMs]
  exact ⟨h, streamAudio_total_bytes (List.replicate 44 0 ++ [1, 2, 3]) 16000 16 1 100 h⟩

/-- C1 counterexample: for the fixture with `sampleRate = 100`, `bitDepth = 8`,
`channels = 1` and the positive chunk duration `1` ms, the computed chunk size
floors to zero and the streaming loop never advances: no amount of fuel makes
the chunk sequence finite, so the claim as stated (finite sequence summing to
the payload length, for every fixture and every positive chunk duration) is
false. -/
theorem streamAudio_diverges_on_small_chunk :
    ¬ ∃ (fuel : Nat) (cs : List (List Nat)),
        streamAudio (List.replicate 44 0 ++ List.replicate 8 1) 100 8 1 1 fuel
          = some cs := by
  rintro ⟨fuel, cs, hcs⟩
  have hzero : chunkSizeOf 100 8 1 1 = 0 := by
    norm_num [chunkSizeOf, bytesPerMs]
  rw [streamAudio] at hcs
  simp only [hzero] at hcs
  have hdrop : ((List.replicate 44 0 ++ List.replicate 8 1 : List Nat)).drop 44
      = List.replicate 8 1 := by decide
  rw [hdrop] at hcs
  have := streamChunks_chunkSize_zero (List.replicate 8 1)
    (List.replicate 8 (1 : Nat)).length 0 (by simp) fuel
  rw [this] at hcs
  exact Option.noConfusion hcs

end AudioLoader

namespace TranscriptValidator

/-- Entry `dp[i][j]` of the dynamic-programming matrix filled by
`TranscriptValidator.calculateWER`: base cases `dp[i][0] = i`, `dp[0][j] = j`;
on matching words the diagonal value is reused, otherwise the cheapest of
substitution, insertion and deletion (each costing one) is taken with the
same tie-breaking order as the source. -/
def dpEntry (actual expected : List String) : Nat → Nat → Nat
  | 0, j => j
  | i + 1, 0 => i + 1
  | i + 1, j + 1 =>
    if actual.getD i "" = expected.getD j "" then dpEntry actual expected i j
    else
      let substitution := dpEntry actual expected i j + 1
      let insertion := dpEntry actual expected (i + 1) j + 1
      let deletion := dpEntry actual expected i (j + 1) + 1
      if substitution ≤ insertion ∧ substitution ≤ deletion then substitution
      else if insertion ≤ deletion then insertion
      else deletion
termination_by i j => i + j

/-- Entry `ops[i][j]` of the operations matrix filled alongside `dp`:
`'m'` match, `'s'` substitution, `'i'` insertion, `'d'` deletion, with
base rows `'d'.repeat(i)` and `'i'.repeat(j)`. -/
def opsEntry (actual expected : List String) : Nat → Nat → List Char
  | 0, j => List.replicate j 'i'
  | i + 1, 0 => List.replicate (i + 1) 'd'
  | i + 1, j + 1 =>
    if actual.getD i "" = expected.getD j "" then opsEntry actual expected i j ++ ['m']
    else
      let substitution := dpEntry actual expected i j + 1
      let insertion := dpEntry actual expected (i + 1) j + 1
      let deletion := dpEntry actual expected i (j + 1) + 1
      if substitution ≤ insertion ∧ substitution ≤ deletion then
        opsEntry actual expected i j ++ ['s']
      else if insertion ≤ deletion then opsEntry actual expected (i + 1) j ++ ['i']
      else opsEntry actual expected i (j + 1) ++ ['d']
termination_by i j => i + j

/-- Result record of `calculateWER`: the word error rate and the backtrace of
edit operations. -/
structure WERResult where
  wer : ℚ
  operations : List Char
deriving DecidableEq

/-- `TranscriptValidator.calculateWER` on word lists (the source tokenizes its
two string arguments into word lists and proceeds exactly like this): early
return on an empty expected list, otherwise the dynamic program over the full
matrix with `wer = dp[m][n] / n`. -/
def calculateWER (actual expected : List String) : WERResult :=
  if expected.length = 0 then
    { wer := if 0 < actual.length then 1 else 0, operations := [] }
  else
    { wer := (dpEntry actual expected actual.length expected.length : ℚ) /
        (expected.length : ℚ),
      operations := opsEntry actual expected actual.length expected.length }

/-- The distance computed by the dynamic program on the full word lists. -/
def werDistance (actual expected : List String) : Nat :=
  dpEntry actual expected actual.length expected.length

/-- Specification-side notion of edit script: `Transforms xs ys n` holds when
`xs` can be rewritten into `ys` using `n` single-word operations, where
keeping a matching word is free and substitution, insertion and deletion each
cost one. The word-level edit distance is the least such `n`. -/
inductive Transforms : List String → List String → Nat → Prop
  | nil : Transforms [] [] 0
  | keep (w : String) {xs ys : List String} {n : Nat} :
      Transforms xs ys n → Transforms (w :: xs) (w :: ys) n
  | substitute (x y : String) {xs ys : List String} {n : Nat} :
      Transforms xs ys n → Transforms (x :: xs) (y :: ys) (n + 1)
  | insert (y : String) {xs ys : List String} {n : Nat} :
      Transforms xs ys n → Transforms xs (y :: ys) (n + 1)
  | delete (x : String) {xs ys : List String} {n : Nat} :
      Transforms xs ys n → Transforms (x :: xs) ys (n + 1)

lemma dpEntry_zero_left (a e : List String) (j : Nat) : dpEntry a e 0 j = j := by
  simp [dpEntry]

lemma dpEntry_zero_right (a e : List String) (i : Nat) : dpEntry a e i 0 = i := by
  cases i <;> simp [dpEntry]

lemma dpEntry_succ_succ_eq (a e : List String) (i j : Nat)
    (h : a.getD i "" = e.getD j "") :
    dpEntry a e (i + 1) (j + 1) = dpEntry a e i j := by
  rw [dpEntry, if_pos h]

lemma dpEntry_succ_succ_ne (a e : List String) (i j : Nat)
    (h : ¬ a.getD i "" = e.getD j "") :
    dpEntry a e (i + 1) (j + 1) =
      1 + min (dpEntry a e i j)
        (min (dpEntry a e (i + 1) j) (dpEntry a e i (j + 1))) := by
  rw [dpEntry, if_neg h]
  dsimp only
  split_ifs <;> omega

end TranscriptValidator

namespace TranscriptValidator

lemma dpEntry_step (a e : List String) :
    ∀ N i j, i + j ≤ N →
      (dpEntry a e i j ≤ 1 + dpEntry a e (i + 1) j) ∧
      (dpEntry a e i j ≤ 1 + dpEntry a e i (j + 1)) ∧
      (dpEntry a e i (j + 1) ≤ 1 + dpEntry a e i j) ∧
      (dpEntry a e (i + 1) j ≤ 1 + dpEntry a e i j) := by
  intro N
  induction N with
  | zero =>
    intro i j h
    have hi : i = 0 := by omega
    have hj : j = 0 := by omega
    subst hi; subst hj
    simp [dpEntry_zero_left, dpEntry_zero_right]
  | succ N ih =>
    intro i j h
    rcases Nat.lt_or_ge (i + j) (N + 1) with hlt | hge
    · exact ih i j (by omega)
    have hN : i + j = N + 1 := by omega
    refine ⟨?_, ?_, ?_, ?_⟩
    · -- S1 : dp i j ≤ 1 + dp (i+1) j
      cases j with
      | zero => rw [dpEntry_zero_right, dpEntry_zero_right]; omega
      | succ j' =>
        by_cases heq : a.getD i "" = e.getD j' ""
        · rw [dpEntry_succ_succ_eq a e i j' heq]
          exact (ih i j' (by omega)).2.2.1
        · rw [dpEntry_succ_succ_ne a e i j' heq]
          have h3 := (ih i j' (by omega)).2.2.1
          have h1 := (ih i j' (by omega)).1
          omega
    · -- S2 : dp i j ≤ 1 + dp i (j+1)
      cases i with
      | zero => rw [dpEntry_zero_left, dpEntry_zero_left]; omega
      | succ i' =>
        by_cases heq : a.getD i' "" = e.getD j ""
        · rw [dpEntry_succ_succ_eq a e i' j heq]
          exact (ih i' j (by omega)).2.2.2
        · rw [dpEntry_succ_succ_ne a e i' j heq]
          have h4 := (ih i' j (by omega)).2.2.2
          have h2 := (ih i' j (by omega)).2.1
          omega
    · -- S3 : dp i (j+1) ≤ 1 + dp i j
      cases i with
      | zero => rw [dpEntry_zero_left, dpEntry_zero_left]; omega
      | succ i' =>
        by_cases heq : a.getD i' "" = e.getD j ""
        · rw [dpEntry_succ_succ_eq a e i' j heq]
          exact (ih i' j (by omega)).1
        · rw [dpEntry_succ_succ_ne a e i' j heq]
          omega
    · -- S4 : dp (i+1) j ≤ 1 + dp i j
      cases j with
      | zero => rw [dpEntry_zero_right, dpEntry_zero_right]; omega
      | succ j' =>
        by_cases heq : a.getD i "" = e.getD j' ""
        · rw [dpEntry_succ_succ_eq a e i j' heq]
          exact (ih i j' (by omega)).2.1
        · rw [dpEntry_succ_succ_ne a e i j' heq]
          omega

lemma transforms_nil_left : ∀ l : List String, Transforms [] l l.length := by
  intro l
  induction l with
  | nil => exact .nil
  | cons x xs ih => exact .insert x ih

lemma transforms_nil_right : ∀ l : List String, Transforms l [] l.length := by
  intro l
  induction l with
  | nil => exact .nil
  | cons x xs ih => exact .delete x ih

lemma take_succ_reverse (l : List String) (i : Nat) (h : i < l.length) :
    (l.take (i + 1)).reverse = l.getD i "" :: (l.take i).reverse := by
  rw [List.take_succ]
  have h1 : l[i]? = some (l.getD i "") := by
    rw [List.getElem?_eq_getElem h, List.getD_eq_getElem l "" h]
  rw [h1]
  simp

end TranscriptValidator

namespace TranscriptValidator

lemma transforms_dpEntry (a e : List String) :
    ∀ N i j, i + j ≤ N → i ≤ a.length → j ≤ e.length →
      Transforms ((a.take i).reverse) ((e.take j).reverse) (dpEntry a e i j) := by
  intro N
  induction N with
  | zero =>
    intro i j h hi hj
    have hi0 : i = 0 := by omega
    have hj0 : j = 0 := by omega
    subst hi0; subst hj0
    simpa [dpEntry_zero_left] using Transforms.nil
  | succ N ih =>
    intro i j h hi hj
    rcases Nat.lt_or_ge (i + j) (N + 1) with hlt | hge
    · exact ih i j (by omega) hi hj
    cases i with
    | zero =>
      rw [dpEntry_zero_left]
      have := transforms_nil_left ((e.take j).reverse)
      simpa [List.length_take, Nat.min_eq_left hj] using this
    | succ i' =>
      cases j with
      | zero =>
        rw [dpEntry_zero_right]
        have := transforms_nil_right ((a.take (i' + 1)).reverse)
        simpa [List.length_take, Nat.min_eq_left hi] using this
      | succ j' =>
        rw [take_succ_reverse a i' (by omega), take_succ_reverse e j' (by omega)]
        by_cases heq : a.getD i' "" = e.getD j' ""
        · rw [dpEntry_succ_succ_eq a e i' j' heq, ← heq]
          exact Transforms.keep _ (ih i' j' (by omega) (by omega) (by omega))
        · rw [dpEntry_succ_succ_ne a e i' j' heq]
          rcases min_choice (dpEntry a e i' j')
              (min (dpEntry a e (i' + 1) j') (dpEntry a e i' (j' + 1))) with h1 | h1
          · rw [h1, Nat.add_comm]
            exact Transforms.substitute _ _ (ih i' j' (by omega) (by omega) (by omega))
          · rw [h1]
            rcases min_choice (dpEntry a e (i' + 1) j') (dpEntry a e i' (j' + 1)) with
              h2 | h2
            · rw [h2, Nat.add_comm]
              have hrec := ih (i' + 1) j' (by omega) (by omega) (by omega)
              rw [take_succ_reverse a i' (by omega)] at hrec
              exact Transforms.insert _ hrec
            · rw [h2, Nat.add_comm]
              have hrec := ih i' (j' + 1) (by omega) (by omega) (by omega)
              rw [take_succ_reverse e j' (by omega)] at hrec
              exact Transforms.delete _ hrec

lemma dpEntry_le_of_transforms (a e : List String) {X Y : List String} {k : Nat}
    (h : Transforms X Y k) :
    ∀ i j, i ≤ a.length → j ≤ e.length →
      X = (a.take i).reverse → Y = (e.take j).reverse →
      dpEntry a e i j ≤ k := by
  induction h with
  | nil =>
    intro i j hi hj hX hY
    have hX' : a.take i = [] := by
      have := congrArg List.reverse hX
      simpa using this.symm
    have hY' : e.take j = [] := by
      have := congrArg List.reverse hY
      simpa using this.symm
    have hi0 : i = 0 := by
      rcases List.take_eq_nil_iff.mp hX' with h0 | h0
      · exact h0
      · simp [h0] at hi; omega
    have hj0 : j = 0 := by
      rcases List.take_eq_nil_iff.mp hY' with h0 | h0
      · exact h0
      · simp [h0] at hj; omega
    subst hi0; subst hj0
    rw [dpEntry_zero_left]
  | keep w hsub ih =>
    intro i j hi hj hX hY
    cases i with
    | zero => simp at hX
    | succ i' =>
      cases j with
      | zero => simp at hY
      | succ j' =>
        rw [take_succ_reverse a i' (by omega)] at hX
        rw [take_succ_reverse e j' (by omega)] at hY
        injection hX with hw hxs
        injection hY with hw2 hys
        have heq : a.getD i' "" = e.getD j' "" := by rw [← hw, ← hw2]
        rw [dpEntry_succ_succ_eq a e i' j' heq]
        exact ih i' j' (by omega) (by omega) hxs hys
  | substitute x y hsub ih =>
    intro i j hi hj hX hY
    cases i with
    | zero => simp at hX
    | succ i' =>
      cases j with
      | zero => simp at hY
      | succ j' =>
        rw [take_succ_reverse a i' (by omega)] at hX
        rw [take_succ_reverse e j' (by omega)] at hY
        injection hX with hw hxs
        injection hY with hw2 hys
        have hle := ih i' j' (by omega) (by omega) hxs hys
        by_cases heq : a.getD i' "" = e.getD j' ""
        · rw [dpEntry_succ_succ_eq a e i' j' heq]; omega
        · rw [dpEntry_succ_succ_ne a e i' j' heq]; omega
  | insert y hsub ih =>
    intro i j hi hj hX hY
    cases j with
    | zero => simp at hY
    | succ j' =>
      rw [take_succ_reverse e j' (by omega)] at hY
      injection hY with hw hys
      cases i with
      | zero =>
        have hle := ih 0 j' (by omega) (by omega) hX hys
        rw [dpEntry_zero_left] at hle ⊢
        omega
      | succ i' =>
        have hle := ih (i' + 1) j' (by omega) (by omega) hX hys
        have hstep := (dpEntry_step a e (i' + j') i' j' le_rfl).1
        by_cases heq : a.getD i' "" = e.getD j' ""
        · rw [dpEntry_succ_succ_eq a e i' j' heq]; omega
        · rw [dpEntry_succ_succ_ne a e i' j' heq]; omega
  | delete x hsub ih =>
    intro i j hi hj hX hY
    cases i with
    | zero => simp at hX
    | succ i' =>
      rw [take_succ_reverse a i' (by omega)] at hX
      injection hX with hw hxs
      cases j with
      | zero =>
        have hle := ih i' 0 (by omega) (by omega) hxs hY
        rw [dpEntry_zero_right] at hle ⊢
        omega
      | succ j' =>
        have hle := ih i' (j' + 1) (by omega) (by omega) hxs hY
        have hstep := (dpEntry_step a e (i' + j') i' j' le_rfl).2.1
        by_cases heq : a.getD i' "" = e.getD j' ""
        · rw [dpEntry_succ_succ_eq a e i' j' heq]; omega
        · rw [dpEntry_succ_succ_ne a e i' j' heq]; omega

lemma transforms_snoc_keep (w : String) {xs ys : List String} {n : Nat}
    (h : Transforms xs ys n) : Transforms (xs ++ [w]) (ys ++ [w]) n := by
  induction h with
  | nil => exact .keep w .nil
  | keep v hsub ih => exact .keep v ih
  | substitute xx yy hsub ih => exact .substitute xx yy ih
  | insert yy hsub ih => exact .insert yy ih
  | delete xx hsub ih => exact .delete xx ih

lemma transforms_snoc_substitute (x y : String) {xs ys : List String} {n : Nat}
    (h : Transforms xs ys n) : Transforms (xs ++ [x]) (ys ++ [y]) (n + 1) := by
  induction h with
  | nil => exact .substitute x y .nil
  | keep v hsub ih => exact .keep v ih
  | substitute xx yy hsub ih => exact .substitute xx yy ih
  | insert yy hsub ih => exact .insert yy ih
  | delete xx hsub ih => exact .delete xx ih

lemma transforms_snoc_insert (y : String) {xs ys : List String} {n : Nat}
    (h : Transforms xs ys n) : Transforms xs (ys ++ [y]) (n + 1) := by
  induction h with
  | nil => exact .insert y .nil
  | keep v hsub ih => exact .keep v ih
  | substitute xx yy hsub ih => exact .substitute xx yy ih
  | insert yy hsub ih => exact .insert yy ih
  | delete xx hsub ih => exact .delete xx ih

lemma transforms_snoc_delete (x : String) {xs ys : List String} {n : Nat}
    (h : Transforms xs ys n) : Transforms (xs ++ [x]) ys (n + 1) := by
  induction h with
  | nil => exact .delete x .nil
  | keep v hsub ih => exact .keep v ih
  | substitute xx yy hsub ih => exact .substitute xx yy ih
  | insert yy hsub ih => exact .insert yy ih
  | delete xx hsub ih => exact .delete xx ih

lemma transforms_reverse {xs ys : List String} {n : Nat} (h : Transforms xs ys n) :
    Transforms xs.reverse ys.reverse n := by
  induction h with
  | nil => exact .nil
  | keep v hsub ih => simpa using transforms_snoc_keep v ih
  | substitute xx yy hsub ih => simpa using transforms_snoc_substitute xx yy ih
  | insert yy hsub ih => simpa using transforms_snoc_insert yy ih
  | delete xx hsub ih => simpa using transforms_snoc_delete xx ih

lemma werDistance_isLeast (actual expected : List String) :
    IsLeast {k : Nat | Transforms actual expected k} (werDistance actual expected) := by
  constructor
  · have h := transforms_dpEntry actual expected (actual.length + expected.length)
      actual.length expected.length le_rfl le_rfl le_rfl
    rw [List.take_length, List.take_length] at h
    have h2 := transforms_reverse h
    simpa [werDistance] using h2
  · intro k hk
    have hrev := transforms_reverse hk
    exact dpEntry_le_of_transforms actual expected hrev actual.length expected.length
      le_rfl le_rfl (by rw [List.take_length]) (by rw [List.take_length])

/-- C2: `calculateWER` returns the word-level edit distance — the least number
of unit-cost substitutions, insertions and deletions transforming the actual
word list into the expected one — divided by the number of expected words;
when the expected list is empty the division is skipped and the WER is `1`
for a non-empty actual list and `0` for an empty one, so no division by zero
occurs. -/
theorem calculateWER_edit_distance (actual expected : List String) :
    IsLeast {k : Nat | Transforms actual expected k} (werDistance actual expected) ∧
    (calculateWER actual expected).wer =
      (if expected.length = 0 then (if 0 < actual.length then (1 : ℚ) else 0)
       else (werDistance actual expected : ℚ) / (expected.length : ℚ)) := by
  refine ⟨werDistance_isLeast actual expected, ?_⟩
  by_cases h : expected.length = 0 <;> simp [calculateWER, werDistance, h]

end TranscriptValidator

namespace TranscriptValidator

/-- Whether an edit operation advances the cursor into the actual word list
(`'m'`, `'s'` and `'d'` do). -/
def consumesActual (c : Char) : Bool := c = 'm' || c = 's' || c = 'd'

/-- Whether an edit operation advances the cursor into the expected word list
(`'m'`, `'s'` and `'i'` do). -/
def consumesExpected (c : Char) : Bool := c = 'm' || c = 's' || c = 'i'

lemma opsEntry_counts (a e : List String) :
    ∀ N i j, i + j ≤ N →
      (opsEntry a e i j).countP consumesActual = i ∧
      (opsEntry a e i j).countP consumesExpected = j := by
  intro N
  induction N with
  | zero =>
    intro i j h
    have hi : i = 0 := by omega
    have hj : j = 0 := by omega
    subst hi; subst hj
    simp [opsEntry]
  | succ N ih =>
    intro i j h
    rcases Nat.lt_or_ge (i + j) (N + 1) with hlt | hge
    · exact ih i j (by omega)
    cases i with
    | zero =>
      constructor <;> simp [opsEntry, List.countP_replicate, consumesActual,
        consumesExpected]
    | succ i' =>
      cases j with
      | zero =>
        constructor <;> simp [opsEntry, List.countP_replicate, consumesActual,
          consumesExpected]
      | succ j' =>
        rw [opsEntry]
        by_cases heq : a.getD i' "" = e.getD j' ""
        · rw [if_pos heq]
          have := ih i' j' (by omega)
          constructor <;>
            simp [List.countP_append, this.1, this.2, consumesActual,
              consumesExpected, List.countP_cons]
        · rw [if_neg heq]
          dsimp only
          split_ifs with h1 h2
          · have := ih i' j' (by omega)
            constructor <;>
              simp [List.countP_append, this.1, this.2, consumesActual,
                consumesExpected, List.countP_cons]
          · have := ih (i' + 1) j' (by omega)
            constructor <;>
              simp [List.countP_append, this.1, this.2, consumesActual,
                consumesExpected, List.countP_cons]
          · have := ih i' (j' + 1) (by omega)
            constructor <;>
              simp [List.countP_append, this.1, this.2, consumesActual,
                consumesExpected, List.countP_cons]

/-- The tag of a diff entry (the string literals of the source type). -/
inductive DiffType
  | substitution
  | deletion
  | insertion
deriving DecidableEq

/-- A structured diff entry of `findDifferences`: absent optional fields of
the source object are `none`. -/
structure Difference where
  type : DiffType
  position : Nat
  expected : Option String
  actual : Option String
deriving DecidableEq

/-- `TranscriptValidator.findDifferences`: replays the backtrace string over
two cursors. A DP `'i'` op (word present only in expected) is reported as a
`deletion`, a DP `'d'` op (word present only in actual) as an `insertion`,
mirroring the source exactly, including that unknown op characters are
skipped without moving either cursor. -/
def findDifferences (actualWords expectedWords : List String) :
    List Char → Nat → Nat → List Difference
  | [], _, _ => []
  | c :: rest, actualIdx, expectedIdx =>
    if c = 's' then
      { type := .substitution, position := expectedIdx,
        expected := expectedWords[expectedIdx]?,
        actual := actualWords[actualIdx]? }
        :: findDifferences actualWords expectedWords rest (actualIdx + 1) (expectedIdx + 1)
    else if c = 'i' then
      { type := .deletion, position := expectedIdx,
        expected := expectedWords[expectedIdx]?, actual := none }
        :: findDifferences actualWords expectedWords rest actualIdx (expectedIdx + 1)
    else if c = 'd' then
      { type := .insertion, position := expectedIdx, expected := none,
        actual := actualWords[actualIdx]? }
        :: findDifferences actualWords expectedWords rest (actualIdx + 1) expectedIdx
    else if c = 'm' then
      findDifferences actualWords expectedWords rest (actualIdx + 1) (expectedIdx + 1)
    else
      findDifferences actualWords expectedWords rest actualIdx expectedIdx

/-- The field-shape invariant of a diff entry, relative to the two word
lists: substitutions carry both words, deletions only the expected word,
insertions only the actual word; substitution and deletion positions index
the expected list, insertion positions are at most its length. -/
def DiffWellFormed (expectedWords : List String) (d : Difference) : Prop :=
  (d.type = .substitution →
      d.position < expectedWords.length ∧
      d.expected = expectedWords[d.position]? ∧
      d.expected.isSome ∧ d.actual.isSome) ∧
  (d.type = .deletion →
      d.position < expectedWords.length ∧
      d.expected = expectedWords[d.position]? ∧
      d.expected.isSome ∧ d.actual = none) ∧
  (d.type = .insertion →
      d.position ≤ expectedWords.length ∧
      d.expected = none ∧ d.actual.isSome)

lemma findDifferences_shape_aux (aw ew : List String) :
    ∀ (ops : List Char) (ai ei : Nat),
      ai + ops.countP consumesActual = aw.length →
      ei + ops.countP consumesExpected = ew.length →
      ∀ d ∈ findDifferences aw ew ops ai ei, DiffWellFormed ew d := by
  intro ops
  induction ops with
  | nil => intro ai ei _ _ d hd; simp [findDifferences] at hd
  | cons c rest ih =>
    intro ai ei hA hE d hd
    have hcA : (c :: rest).countP consumesActual
        = rest.countP consumesActual + (if consumesActual c then 1 else 0) := by
      simp [List.countP_cons]
    have hcE : (c :: rest).countP consumesExpected
        = rest.countP consumesExpected + (if consumesExpected c then 1 else 0) := by
      simp [List.countP_cons]
    by_cases hs : c = 's'
    · subst hs
      simp only [findDifferences, Char.reduceEq, reduceIte, List.mem_cons] at hd
      have hA' : ai + 1 + rest.countP consumesActual = aw.length := by
        simp [consumesActual, hcA] at hA; omega
      have hE' : ei + 1 + rest.countP consumesExpected = ew.length := by
        simp [consumesExpected, hcE] at hE; omega
      rcases hd with hd | hd
      · subst hd
        have hai : ai < aw.length := by omega
        have hei : ei < ew.length := by omega
        refine ⟨fun _ => ⟨hei, rfl, ?_, ?_⟩, fun h => by simp at h, fun h => by simp at h⟩
        · simp [List.getElem?_eq_getElem hei]
        · simp [List.getElem?_eq_getElem hai]
      · exact ih (ai + 1) (ei + 1) hA' hE' d hd
    · by_cases hi : c = 'i'
      · subst hi
        simp only [findDifferences, Char.reduceEq, reduceIte, List.mem_cons] at hd
        have hA' : ai + rest.countP consumesActual = aw.length := by
          simp [consumesActual, hcA] at hA; omega
        have hE' : ei + 1 + rest.countP consumesExpected = ew.length := by
          simp [consumesExpected, hcE] at hE; omega
        rcases hd with hd | hd
        · subst hd
          have hei : ei < ew.length := by omega
          refine ⟨fun h => by simp at h, fun _ => ⟨hei, rfl, ?_, rfl⟩,
            fun h => by simp at h⟩
          simp [List.getElem?_eq_getElem hei]
        · exact ih ai (ei + 1) hA' hE' d hd
      · by_cases hdl : c = 'd'
        · subst hdl
          simp only [findDifferences, Char.reduceEq, reduceIte, List.mem_cons] at hd
          have hA' : ai + 1 + rest.countP consumesActual = aw.length := by
            simp [consumesActual, hcA] at hA; omega
          have hE' : ei + rest.countP consumesExpected = ew.length := by
            simp [consumesExpected, hcE] at hE; omega
          rcases hd with hd | hd
          · subst hd
            have hai : ai < aw.length := by omega
            have hei : ei ≤ ew.length := by omega
            refine ⟨fun h => by simp at h, fun h => by simp at h,
              fun _ => ⟨hei, rfl, ?_⟩⟩
            simp [List.getElem?_eq_getElem hai]
          · exact ih (ai + 1) ei hA' hE' d hd
        · by_cases hm : c = 'm'
          · subst hm
            simp only [findDifferences, Char.reduceEq, reduceIte] at hd
            have hA' : ai + 1 + rest.countP consumesActual = aw.length := by
              simp [consumesActual, hcA] at hA; omega
            have hE' : ei + 1 + rest.countP consumesExpected = ew.length := by
              simp [consumesExpected, hcE] at hE; omega
            exact ih (ai + 1) (ei + 1) hA' hE' d hd
          · simp only [findDifferences] at hd
            rw [if_neg hs, if_neg hi, if_neg hdl, if_neg hm] at hd
            have hA' : ai + rest.countP consumesActual = aw.length := by
              simp [consumesActual, hcA, hs, hi, hdl, hm] at hA
              omega
            have hE' : ei + rest.countP consumesExpected = ew.length := by
              simp [consumesExpected, hcE, hs, hi, hm] at hE
              omega
            exact ih ai ei hA' hE' d hd

end TranscriptValidator

namespace TranscriptValidator

/-- C10 (amended): every entry of the diff list that `findDifferences`
produces from the backtrace of `calculateWER` satisfies the field-shape
invariant: a substitution entry carries both an expected and an actual word,
a deletion entry carries only an expected word, an insertion entry carries
only an actual word; substitution and deletion positions are valid indices
into the expected word sequence (and index the carried expected word), while
an insertion position is the current cursor into the expected sequence and
may equal its length (insertion past the last expected word). -/
theorem findDifferences_wellFormed (actualWords expectedWords : List String)
    (d : Difference)
    (hd : d ∈ findDifferences actualWords expectedWords
        (calculateWER actualWords expectedWords).operations 0 0) :
    DiffWellFormed expectedWords d := by
  by_cases h : expectedWords.length = 0
  · simp [calculateWER, h, findDifferences] at hd
  · have hops : (calculateWER actualWords expectedWords).operations
        = opsEntry actualWords expectedWords actualWords.length expectedWords.length := by
      simp [calculateWER, h]
    rw [hops] at hd
    have hc := opsEntry_counts actualWords expectedWords
      (actualWords.length + expectedWords.length)
      actualWords.length expectedWords.length le_rfl
    exact findDifferences_shape_aux actualWords expectedWords _ 0 0
      (by rw [Nat.zero_add, hc.1]) (by rw [Nat.zero_add, hc.2]) d hd

/-- Witness for `findDifferences_wellFormed`: for actual `["x"]` and expected
`["y"]` the diff list is a single substitution entry carrying both words. -/
theorem findDifferences_wellFormed_witness :
    ({ type := .substitution, position := 0, expected := some "y",
        actual := some "x" } : Difference) ∈
      findDifferences ["x"] ["y"] (calculateWER ["x"] ["y"]).operations 0 0 ∧
    DiffWellFormed ["y"]
      { type := .substitution, position := 0, expected := some "y",
        actual := some "x" } := by
  have hmem :
      ({ type := .substitution, position := 0, expected := some "y",
         actual := some "x" } : Difference) ∈
        findDifferences ["x"] ["y"] (calculateWER ["x"] ["y"]).operations 0 0 := by
    have hops : (calculateWER ["x"] ["y"]).operations = ['s'] := by
      simp [calculateWER, opsEntry, dpEntry, List.getD]
    rw [hops]
    simp [findDifferences]
  exact ⟨hmem, findDifferences_wellFormed ["x"] ["y"] _ hmem⟩

/-- C10 counterexample: for actual `["a", "b"]` and expected `["a"]` the diff
list contains an insertion entry whose position equals `1`, which is not a
valid index into the one-element expected word sequence — so the claim read
as requiring every position to be a strict index into the expected sequence
is false; insertion positions can point one past its end. -/
theorem findDifferences_insertion_past_end :
    ∃ d ∈ findDifferences ["a", "b"] ["a"]
        (calculateWER ["a", "b"] ["a"]).operations 0 0,
      d.type = .insertion ∧ d.position = 1 ∧
      ¬ d.position < (["a"] : List String).length := by
  have hops : (calculateWER ["a", "b"] ["a"]).operations = ['m', 'd'] := by
    simp [calculateWER, opsEntry, dpEntry, List.getD]
  refine
    ⟨{ type := .insertion, position := 1, expected := none, actual := some "b" },
      ?_, rfl, rfl, by simp⟩
  rw [hops]
  simp [findDifferences]

end TranscriptValidator

namespace WavCodec

/-- Error taxonomy of the codec model: `formatError` is the explicit
`throw new Error(...)` of `parseWavHeader`; `rangeError` models the
`RangeError` a `DataView` read past the buffer end (or an invalid typed-array
length) raises at runtime. -/
inductive WavError
  | formatError (msg : String)
  | rangeError
deriving DecidableEq

/-- The header record returned by `parseWavHeader`. `dataLength` is an `Int`
because the fallback branch computes `buffer.byteLength - 44`, which is
negative for buffers shorter than 44 bytes. -/
structure WavHeader where
  sampleRate : Nat
  channels : Nat
  bitDepth : Nat
  dataOffset : Nat
  dataLength : Int
deriving DecidableEq

/-- Little-endian bytes of a 16-bit value as `DataView.setUint16` stores it. -/
def u16LE (v : Nat) : List Nat :=
  [v % 256, v / 256 % 256]

/-- Little-endian bytes of a 32-bit value as `DataView.setUint32` stores it. -/
def u32LE (v : Nat) : List Nat :=
  [v % 256, v / 256 % 256, v / 65536 % 256, v / 16777216 % 256]

/-- `DataView.getUint8`: a read past the end is a `RangeError`. -/
def getUint8 (b : List Nat) (o : Nat) : Except WavError Nat :=
  match b[o]? with
  | some v => .ok v
  | none => .error .rangeError

/-- `DataView.getUint16(offset, true)` (little-endian). -/
def getUint16LE (b : List Nat) (o : Nat) : Except WavError Nat := do
  let b0 ← getUint8 b o
  let b1 ← getUint8 b (o + 1)
  pure (b0 + 256 * b1)

/-- `DataView.getUint32(offset, true)` (little-endian). -/
def getUint32LE (b : List Nat) (o : Nat) : Except WavError Nat := do
  let b0 ← getUint8 b o
  let b1 ← getUint8 b (o + 1)
  let b2 ← getUint8 b (o + 2)
  let b3 ← getUint8 b (o + 3)
  pure (b0 + 256 * b1 + 65536 * b2 + 16777216 * b3)

/-- `DataView.getInt16(offset, true)`: two's-complement decoding. -/
def getInt16LE (b : List Nat) (o : Nat) : Except WavError Int := do
  let v ← getUint16LE b o
  pure (if v < 32768 then (v : Int) else (v : Int) - 65536)

/-- `WavUtils.createHeader(dataLength, sampleRate, channels, bitDepth)`: the
44 header bytes — RIFF magic, riff size, WAVE magic, fmt chunk (PCM format,
channels, sample rate, byte rate, block align, bit depth), data chunk magic
and size. Byte rate and block align use `bitDepth / 8`, exact for the 8- and
16-bit depths the recorder produces. -/
def createHeader (dataLength sampleRate channels bitDepth : Nat) : List Nat :=
  [82, 73, 70, 70] ++ u32LE (36 + dataLength) ++ [87, 65, 86, 69] ++
    [102, 109, 116, 32] ++ u32LE 16 ++ u16LE 1 ++ u16LE channels ++
    u32LE sampleRate ++ u32LE (sampleRate * channels * (bitDepth / 8)) ++
    u16LE (channels * (bitDepth / 8)) ++ u16LE bitDepth ++
    [100, 97, 116, 97] ++ u32LE dataLength

/-- The two little-endian bytes of one 16-bit signed sample as stored by an
`Int16Array` buffer view: the two's-complement bit pattern `s % 2^16`. -/
def encodeInt16LE (s : Int) : List Nat :=
  [((s % 65536) % 256).toNat, ((s % 65536) / 256).toNat]

/-- `WavUtils.createWavBuffer(samples, sampleRate, channels)` on an
`Int16Array` input (no float conversion): 44-byte header for 16-bit data
followed by the little-endian sample bytes. -/
def createWavBuffer (samples : List Int) (sampleRate channels : Nat) : List Nat :=
  createHeader (2 * samples.length) sampleRate channels 16 ++
    (samples.map encodeInt16LE).flatten

/-- The chunk-scanning loop of `parseWavHeader`: starting at offset 12, read
a chunk id and size, return the data chunk when found, otherwise skip
`8 + chunkSize` bytes forward. The loop always terminates (each step advances
by at least 8); the structural fuel argument is set to `b.length` by the
caller, which bounds the iteration count, and exhaustion falls back to the
same result as loop exit. -/
def findDataChunk (b : List Nat) : Nat → Nat → Except WavError (Option (Nat × Nat))
  | 0, _ => .ok none
  | fuel + 1, dataOffset =>
    if dataOffset < b.length - 8 then do
      let c0 ← getUint8 b dataOffset
      let c1 ← getUint8 b (dataOffset + 1)
      let c2 ← getUint8 b (dataOffset + 2)
      let c3 ← getUint8 b (dataOffset + 3)
      let chunkSize ← getUint32LE b (dataOffset + 4)
      if c0 = 100 ∧ c1 = 97 ∧ c2 = 116 ∧ c3 = 97 then
        pure (some (dataOffset + 8, chunkSize))
      else
        findDataChunk b fuel (dataOffset + 8 + chunkSize)
    else .ok none

/-- `parseWavHeader(buffer)`: verify the RIFF magic (throwing the format
error otherwise), read sample rate, channel count and bit depth at their
fixed offsets, then scan for the data chunk, defaulting to offset 44 and
length `byteLength - 44` when no data chunk is found. -/
def parseWavHeader (b : List Nat) : Except WavError WavHeader := do
  let r0 ← getUint8 b 0
  let r1 ← getUint8 b 1
  let r2 ← getUint8 b 2
  let r3 ← getUint8 b 3
  if r0 = 82 ∧ r1 = 73 ∧ r2 = 70 ∧ r3 = 70 then
    let sampleRate ← getUint32LE b 24
    let channels ← getUint16LE b 22
    let bitDepth ← getUint16LE b 34
    match ← findDataChunk b b.length 12 with
    | some (dataOffset, dataLength) =>
        pure ⟨sampleRate, channels, bitDepth, dataOffset, (dataLength : Int)⟩
    | none => pure ⟨sampleRate, channels, bitDepth, 44, (b.length : Int) - 44⟩
  else
    throw (.formatError "Invalid WAV file: missing RIFF header")

/-- One iteration of the sample-extraction loop of `extractSamples`: 16-bit
samples are read as signed integers and scaled by `1/32768`, 8-bit samples
are unsigned and centred at 128; any other bit depth leaves the sample at the
`Float32Array` default of zero. -/
def readSample (b : List Nat) (dataOffset bitDepth : Nat) (i : Nat) :
    Except WavError ℚ :=
  if bitDepth = 16 then do
    let v ← getInt16LE b (dataOffset + i * 2)
    pure ((v : ℚ) / 32768)
  else if bitDepth = 8 then do
    let v ← getUint8 b (dataOffset + i)
    pure (((v : ℚ) - 128) / 128)
  else pure 0

/-- `extractSamples(buffer)`: parse the header, compute
`samplesCount = dataLength / (bitDepth / 8)` and fill a float array of that
length. `new Float32Array(samplesCount)` raises a `RangeError` unless the
count is a nonnegative integer (and `bitDepth = 0` makes it no number at
all), which the guard models. -/
def extractSamples (b : List Nat) : Except WavError (List ℚ) := do
  let header ← parseWavHeader b
  if header.bitDepth = 0 then
    throw .rangeError
  else
    let cnt : ℚ := (header.dataLength : ℚ) / ((header.bitDepth : ℚ) / 8)
    if cnt.den = 1 ∧ 0 ≤ cnt.num then
      (List.range cnt.num.toNat).mapM (readSample b header.dataOffset header.bitDepth)
    else
      throw .rangeError

end WavCodec

namespace WavCodec

instance exceptDecEq {ε α : Type} [DecidableEq ε] [DecidableEq α] :
    DecidableEq (Except ε α) := fun x y =>
  match x, y with
  | .ok a, .ok b =>
      if h : a = b then isTrue (by rw [h]) else isFalse (by simp [h])
  | .error a, .error b =>
      if h : a = b then isTrue (by rw [h]) else isFalse (by simp [h])
  | .ok _, .error _ => isFalse (by simp)
  | .error _, .ok _ => isFalse (by simp)

@[simp] lemma ok_bind {ε α β : Type} (a : α) (f : α → Except ε β) :
    (Except.ok a >>= f : Except ε β) = f a := rfl

@[simp] lemma error_bind {ε α β : Type} (e : ε) (f : α → Except ε β) :
    (Except.error e >>= f : Except ε β) = Except.error e := rfl

@[simp] lemma pure_eq_ok {ε α : Type} (a : α) :
    (pure a : Except ε α) = Except.ok a := rfl

@[simp] lemma throw_eq_error {ε α : Type} (e : ε) :
    (throw e : Except ε α) = Except.error e := rfl

lemma getUint8_ok (b : List Nat) (o : Nat) (h : o < b.length) :
    getUint8 b o = .ok (b.getD o 0) := by
  rw [getUint8, List.getElem?_eq_getElem h, List.getD_eq_getElem b 0 h]

lemma findDataChunk_ok (b : List Nat) :
    ∀ fuel off, ∃ r, findDataChunk b fuel off = .ok r := by
  intro fuel
  induction fuel with
  | zero => intro off; exact ⟨none, rfl⟩
  | succ n ih =>
    intro off
    by_cases hc : off < b.length - 8
    · have h0 := getUint8_ok b off (by omega)
      have h1 := getUint8_ok b (off + 1) (by omega)
      have h2 := getUint8_ok b (off + 2) (by omega)
      have h3 := getUint8_ok b (off + 3) (by omega)
      have h4 := getUint8_ok b (off + 4) (by omega)
      have h5 := getUint8_ok b (off + 4 + 1) (by omega)
      have h6 := getUint8_ok b (off + 4 + 2) (by omega)
      have h7 := getUint8_ok b (off + 4 + 3) (by omega)
      rw [findDataChunk]
      rw [if_pos hc]
      simp only [getUint32LE, h0, h1, h2, h3, h4, h5, h6, h7, ok_bind,
        pure_eq_ok]
      split_ifs
      · exact ⟨_, rfl⟩
      · exact ih _
    · rw [findDataChunk, if_neg hc]
      exact ⟨none, rfl⟩

end WavCodec

namespace WavCodec

/-- C4 (amended): for buffers long enough for the fixed-offset header reads
(at least 36 bytes), `parseWavHeader` fails exactly when the RIFF magic is
absent — and then with the format error; the `WAVE` magic is not checked and
the declared bit depth is never validated, so parsing succeeds on every
RIFF-tagged buffer regardless of bit depth. -/
theorem parseWavHeader_fails_iff_no_riff (b : List Nat) (hlen : 36 ≤ b.length) :
    ((∃ h, parseWavHeader b = .ok h) ↔
      (b.getD 0 0 = 82 ∧ b.getD 1 0 = 73 ∧ b.getD 2 0 = 70 ∧ b.getD 3 0 = 70)) ∧
    (¬ (b.getD 0 0 = 82 ∧ b.getD 1 0 = 73 ∧ b.getD 2 0 = 70 ∧ b.getD 3 0 = 70) →
      parseWavHeader b = .error (.formatError "Invalid WAV file: missing RIFF header")) := by
  have h0 := getUint8_ok b 0 (by omega)
  have h1 := getUint8_ok b 1 (by omega)
  have h2 := getUint8_ok b 2 (by omega)
  have h3 := getUint8_ok b 3 (by omega)
  by_cases hriff : b.getD 0 0 = 82 ∧ b.getD 1 0 = 73 ∧ b.getD 2 0 = 70 ∧ b.getD 3 0 = 70
  · refine ⟨⟨fun _ => hriff, fun _ => ?_⟩, fun hn => absurd hriff hn⟩
    rw [parseWavHeader]
    simp only [h0, h1, h2, h3, ok_bind]
    rw [if_pos hriff]
    have hsr0 := getUint8_ok b 24 (by omega)
    have hsr1 := getUint8_ok b (24 + 1) (by omega)
    have hsr2 := getUint8_ok b (24 + 2) (by omega)
    have hsr3 := getUint8_ok b (24 + 3) (by omega)
    have hch0 := getUint8_ok b 22 (by omega)
    have hch1 := getUint8_ok b (22 + 1) (by omega)
    have hbd0 := getUint8_ok b 34 (by omega)
    have hbd1 := getUint8_ok b (34 + 1) (by omega)
    simp only [getUint32LE, getUint16LE, hsr0, hsr1, hsr2, hsr3, hch0, hch1,
      hbd0, hbd1, ok_bind, pure_eq_ok]
    obtain ⟨r, hr⟩ := findDataChunk_ok b b.length 12
    rw [hr]
    rcases r with _ | ⟨doff, dlen⟩
    · exact ⟨_, rfl⟩
    · exact ⟨_, rfl⟩
  · refine ⟨⟨fun hok => ?_, fun hcond => absurd hcond hriff⟩, fun _ => ?_⟩
    · obtain ⟨hh, hhk⟩ := hok
      rw [parseWavHeader] at hhk
      simp only [h0, h1, h2, h3, ok_bind] at hhk
      rw [if_neg hriff] at hhk
      simp at hhk
    · rw [parseWavHeader]
      simp only [h0, h1, h2, h3, ok_bind]
      rw [if_neg hriff]
      rfl

/-- Witness for `parseWavHeader_fails_iff_no_riff` at the concrete 44-byte
header produced by the recorder for a 16-bit empty-payload file. -/
theorem parseWavHeader_fails_iff_no_riff_witness :
    36 ≤ (createHeader 0 16000 1 16).length ∧
    (((∃ h, parseWavHeader (createHeader 0 16000 1 16) = .ok h) ↔
      ((createHeader 0 16000 1 16).getD 0 0 = 82 ∧
       (createHeader 0 16000 1 16).getD 1 0 = 73 ∧
       (createHeader 0 16000 1 16).getD 2 0 = 70 ∧
       (createHeader 0 16000 1 16).getD 3 0 = 70)) ∧
    (¬ ((createHeader 0 16000 1 16).getD 0 0 = 82 ∧
        (createHeader 0 16000 1 16).getD 1 0 = 73 ∧
        (createHeader 0 16000 1 16).getD 2 0 = 70 ∧
        (createHeader 0 16000 1 16).getD 3 0 = 70) →
      parseWavHeader (createHeader 0 16000 1 16)
        = .error (.formatError "Invalid WAV file: missing RIFF header"))) := by
  have hlen : 36 ≤ (createHeader 0 16000 1 16).length := by decide
  exact ⟨hlen, parseWavHeader_fails_iff_no_riff (createHeader 0 16000 1 16) hlen⟩

/-- C4 counterexample: a buffer whose declared bit depth is 24 — supported by
neither the 8-bit nor the 16-bit decoder — parses successfully (and even
decodes to the empty sample list), contradicting the claim that parsing fails
on every unsupported bit depth. -/
theorem parseWavHeader_accepts_bitDepth_24 :
    parseWavHeader (createHeader 0 16000 1 24)
      = .ok ⟨16000, 1, 24, 44, 0⟩ ∧
    extractSamples (createHeader 0 16000 1 24) = .ok [] ∧
    ¬ (24 = 8 ∨ 24 = 16) := by
  have hp : parseWavHeader (createHeader 0 16000 1 24)
      = .ok ⟨16000, 1, 24, 44, 0⟩ := rfl
  refine ⟨hp, ?_, by decide⟩
  rw [extractSamples, hp, ok_bind]
  norm_num
  rfl

end WavCodec

namespace WavCodec

lemma u32_combine (v : Nat) (hv : v < 4294967296) :
    v % 256 + 256 * (v / 256 % 256) + 65536 * (v / 65536 % 256) +
      16777216 * (v / 16777216 % 256) = v := by omega

lemma u16_combine (v : Nat) (hv : v < 65536) :
    v % 256 + 256 * (v / 256 % 256) = v := by omega

lemma createHeader_length (dl sr ch bd : Nat) :
    (createHeader dl sr ch bd).length = 44 := by
  simp [createHeader, u32LE, u16LE]

/-- Parsing a buffer built from `createHeader` followed by a payload of the
declared length recovers exactly the declared parameters, with the data chunk
found at offset 44. -/
lemma getUint8_cons_zero (a : Nat) (l : List Nat) :
    getUint8 (a :: l) 0 = .ok a := by
  simp [getUint8]

lemma getUint8_cons_succ (a : Nat) (l : List Nat) (n : Nat) :
    getUint8 (a :: l) (n + 1) = getUint8 l n := by
  simp [getUint8]

lemma createHeader_cons (dl sr ch bd : Nat) (data : List Nat) :
    createHeader dl sr ch bd ++ data
      = 82 :: 73 :: 70 :: 70 ::
        ((36 + dl) % 256) :: ((36 + dl) / 256 % 256) :: ((36 + dl) / 65536 % 256) ::
        ((36 + dl) / 16777216 % 256) ::
        87 :: 65 :: 86 :: 69 ::
        102 :: 109 :: 116 :: 32 ::
        16 :: 0 :: 0 :: 0 ::
        1 :: 0 ::
        (ch % 256) :: (ch / 256 % 256) ::
        (sr % 256) :: (sr / 256 % 256) :: (sr / 65536 % 256) :: (sr / 16777216 % 256) ::
        ((sr * ch * (bd / 8)) % 256) :: ((sr * ch * (bd / 8)) / 256 % 256) ::
        ((sr * ch * (bd / 8)) / 65536 % 256) :: ((sr * ch * (bd / 8)) / 16777216 % 256) ::
        ((ch * (bd / 8)) % 256) :: ((ch * (bd / 8)) / 256 % 256) ::
        (bd % 256) :: (bd / 256 % 256) ::
        100 :: 97 :: 116 :: 97 ::
        (dl % 256) :: (dl / 256 % 256) :: (dl / 65536 % 256) :: (dl / 16777216 % 256) ::
        data := by
  simp [createHeader, u32LE, u16LE]

/-- Parsing a buffer built from `createHeader` followed by a payload of the
declared length recovers exactly the declared parameters, with the data chunk
reported at offset 44 and the declared length. -/
lemma parseWavHeader_createHeader (dl sr ch bd : Nat) (data : List Nat)
    (hdl : dl < 4294967296) (hdata : data.length = dl)
    (hsr : sr < 4294967296) (hch : ch < 65536) (hbd : bd < 65536) :
    parseWavHeader (createHeader dl sr ch bd ++ data)
      = .ok ⟨sr, ch, bd, 44, (dl : Int)⟩ := by
  have hb := createHeader_cons dl sr ch bd data
  have hblen : (createHeader dl sr ch bd ++ data).length = 44 + dl := by
    rw [List.length_append, createHeader_length, hdata]
  have e0 : getUint8 (createHeader dl sr ch bd ++ data) 0 = .ok 82 := by
    rw [hb]; simp [getUint8_cons_zero]
  have e1 : getUint8 (createHeader dl sr ch bd ++ data) 1 = .ok 73 := by
    rw [hb]; simp [getUint8_cons_succ, getUint8_cons_zero]
  have e2 : getUint8 (createHeader dl sr ch bd ++ data) 2 = .ok 70 := by
    rw [hb]; simp [getUint8_cons_succ, getUint8_cons_zero]
  have e3 : getUint8 (createHeader dl sr ch bd ++ data) 3 = .ok 70 := by
    rw [hb]; simp [getUint8_cons_succ, getUint8_cons_zero]
  have esr : getUint32LE (createHeader dl sr ch bd ++ data) 24
      = .ok (sr % 256 + 256 * (sr / 256 % 256) + 65536 * (sr / 65536 % 256) +
          16777216 * (sr / 16777216 % 256)) := by
    rw [getUint32LE, hb]
    simp [getUint8_cons_succ, getUint8_cons_zero]
  have ech : getUint16LE (createHeader dl sr ch bd ++ data) 22
      = .ok (ch % 256 + 256 * (ch / 256 % 256)) := by
    rw [getUint16LE, hb]
    simp [getUint8_cons_succ, getUint8_cons_zero]
  have ebd : getUint16LE (createHeader dl sr ch bd ++ data) 34
      = .ok (bd % 256 + 256 * (bd / 256 % 256)) := by
    rw [getUint16LE, hb]
    simp [getUint8_cons_succ, getUint8_cons_zero]
  have efmt0 : getUint8 (createHeader dl sr ch bd ++ data) 12 = .ok 102 := by
    rw [hb]; simp [getUint8_cons_succ, getUint8_cons_zero]
  have efmt1 : getUint8 (createHeader dl sr ch bd ++ data) (12 + 1) = .ok 109 := by
    rw [hb]; simp [getUint8_cons_succ, getUint8_cons_zero]
  have efmt2 : getUint8 (createHeader dl sr ch bd ++ data) (12 + 2) = .ok 116 := by
    rw [hb]; simp [getUint8_cons_succ, getUint8_cons_zero]
  have efmt3 : getUint8 (createHeader dl sr ch bd ++ data) (12 + 3) = .ok 32 := by
    rw [hb]; simp [getUint8_cons_succ, getUint8_cons_zero]
  have efmtsz : getUint32LE (createHeader dl sr ch bd ++ data) (12 + 4) = .ok 16 := by
    rw [getUint32LE, hb]
    simp [getUint8_cons_succ, getUint8_cons_zero]
  have edat0 : getUint8 (createHeader dl sr ch bd ++ data) (12 + 8 + 16) = .ok 100 := by
    rw [hb]; simp [getUint8_cons_succ, getUint8_cons_zero]
  have edat1 : getUint8 (createHeader dl sr ch bd ++ data) (12 + 8 + 16 + 1) = .ok 97 := by
    rw [hb]; simp [getUint8_cons_succ, getUint8_cons_zero]
  have edat2 : getUint8 (createHeader dl sr ch bd ++ data) (12 + 8 + 16 + 2) = .ok 116 := by
    rw [hb]; simp [getUint8_cons_succ, getUint8_cons_zero]
  have edat3 : getUint8 (createHeader dl sr ch bd ++ data) (12 + 8 + 16 + 3) = .ok 97 := by
    rw [hb]; simp [getUint8_cons_succ, getUint8_cons_zero]
  have edatsz : getUint32LE (createHeader dl sr ch bd ++ data) (12 + 8 + 16 + 4)
      = .ok (dl % 256 + 256 * (dl / 256 % 256) + 65536 * (dl / 65536 % 256) +
          16777216 * (dl / 16777216 % 256)) := by
    rw [getUint32LE, hb]
    simp [getUint8_cons_succ, getUint8_cons_zero]
  have escan1 : findDataChunk (createHeader dl sr ch bd ++ data)
        ((createHeader dl sr ch bd ++ data).length) 12
      = findDataChunk (createHeader dl sr ch bd ++ data) (43 + dl) (12 + 8 + 16) := by
    rw [hblen]
    have h44 : 44 + dl = 43 + dl + 1 := by omega
    rw [h44, findDataChunk]
    rw [if_pos (by rw [hblen]; omega)]
    rw [efmt0, efmt1, efmt2, efmt3]
    simp only [ok_bind, efmtsz]
    rw [if_neg (by norm_num)]
  rcases Nat.eq_zero_or_pos dl with hdl0 | hdlpos
  · -- no payload: the scan falls through and the default branch applies
    have escan2 : findDataChunk (createHeader dl sr ch bd ++ data) (43 + dl)
        (12 + 8 + 16) = .ok none := by
      have h43 : 43 + dl = 42 + dl + 1 := by omega
      rw [h43, findDataChunk]
      rw [if_neg (by rw [hblen]; omega)]
    rw [parseWavHeader]
    simp only [e0, e1, e2, e3, ok_bind]
    rw [if_pos (by norm_num)]
    simp only [esr, ech, ebd, ok_bind, escan1, escan2]
    rw [u32_combine sr hsr, u16_combine ch hch, u16_combine bd hbd]
    simp only [pure_eq_ok, hblen, hdl0]
    norm_num
    rw [createHeader_length]
    omega
  · have escan2 : findDataChunk (createHeader dl sr ch bd ++ data) (43 + dl)
        (12 + 8 + 16) = .ok (some (12 + 8 + 16 + 8, dl)) := by
      have h43 : 43 + dl = 42 + dl + 1 := by omega
      rw [h43, findDataChunk]
      rw [if_pos (by rw [hblen]; omega)]
      rw [edat0, edat1, edat2, edat3]
      simp only [ok_bind, edatsz]
      rw [if_pos (by norm_num)]
      rw [u32_combine dl hdl]
      rfl
    rw [parseWavHeader]
    simp only [e0, e1, e2, e3, ok_bind]
    rw [if_pos (by norm_num)]
    simp only [esr, ech, ebd, ok_bind, escan1, escan2]
    rw [u32_combine sr hsr, u16_combine ch hch, u16_combine bd hbd]
    rfl

end WavCodec

namespace WavCodec

lemma encode_flatten_length (samples : List Int) :
    ((samples.map encodeInt16LE).flatten).length = 2 * samples.length := by
  induction samples with
  | nil => simp
  | cons s rest ih =>
    simp only [List.map_cons, List.flatten_cons, List.length_append, ih,
      encodeInt16LE, List.length_cons, List.length_nil, List.length_map]
    omega

lemma encode_flatten_get (samples : List Int) :
    ∀ i, i < samples.length →
      ((samples.map encodeInt16LE).flatten)[i * 2]?
          = some ((samples.getD i 0 % 65536 % 256).toNat) ∧
      ((samples.map encodeInt16LE).flatten)[i * 2 + 1]?
          = some ((samples.getD i 0 % 65536 / 256).toNat) := by
  induction samples with
  | nil => intro i h; simp at h
  | cons s rest ih =>
    intro i h
    cases i with
    | zero => simp [encodeInt16LE]
    | succ i' =>
      have harith1 : (i' + 1) * 2 = i' * 2 + 1 + 1 := by ring
      have harith2 : (i' + 1) * 2 + 1 = (i' * 2 + 1) + 1 + 1 := by ring
      have hrec := ih i' (by simpa using h)
      constructor
      · rw [harith1]
        simpa [encodeInt16LE] using hrec.1
      · rw [harith2]
        simpa [encodeInt16LE] using hrec.2

lemma getInt16_createWav (samples : List Int) (sr ch : Nat) (i : Nat)
    (hi : i < samples.length)
    (h1 : -32768 ≤ samples.getD i 0) (h2 : samples.getD i 0 < 32768) :
    getInt16LE (createWavBuffer samples sr ch) (44 + i * 2)
      = .ok (samples.getD i 0) := by
  have hlo : (createWavBuffer samples sr ch)[44 + i * 2]?
      = some ((samples.getD i 0 % 65536 % 256).toNat) := by
    rw [createWavBuffer, List.getElem?_append_right
      (by rw [createHeader_length]; omega)]
    rw [createHeader_length]
    have : 44 + i * 2 - 44 = i * 2 := by omega
    rw [this]
    exact (encode_flatten_get samples i hi).1
  have hhi : (createWavBuffer samples sr ch)[44 + i * 2 + 1]?
      = some ((samples.getD i 0 % 65536 / 256).toNat) := by
    rw [createWavBuffer, List.getElem?_append_right
      (by rw [createHeader_length]; omega)]
    rw [createHeader_length]
    have : 44 + i * 2 + 1 - 44 = i * 2 + 1 := by omega
    rw [this]
    exact (encode_flatten_get samples i hi).2
  have hlo' : getUint8 (createWavBuffer samples sr ch) (44 + i * 2)
      = .ok ((samples.getD i 0 % 65536 % 256).toNat) := by
    rw [getUint8, hlo]
  have hhi' : getUint8 (createWavBuffer samples sr ch) (44 + i * 2 + 1)
      = .ok ((samples.getD i 0 % 65536 / 256).toNat) := by
    rw [getUint8, hhi]
  rw [getInt16LE, getUint16LE, hlo', ok_bind, hhi', ok_bind, pure_eq_ok, ok_bind,
    pure_eq_ok]
  refine congrArg Except.ok ?_
  split_ifs with hcond <;> omega

lemma list_mapM_ok {ε α β : Type} (l : List α) (f : α → Except ε β) (g : α → β)
    (h : ∀ x ∈ l, f x = .ok (g x)) : l.mapM f = .ok (l.map g) := by
  induction l with
  | nil => rfl
  | cons x xs ih =>
    rw [List.mapM_cons, h x (by simp), ok_bind,
      ih (fun y hy => h y (by simp [hy])), ok_bind, List.map_cons]
    rfl

lemma map_range_getD {α β : Type} (l : List α) (d : α) (g : α → β) :
    (List.range l.length).map (fun i => g (l.getD i d)) = l.map g := by
  apply List.ext_getElem
  · simp
  · intro i h1 h2
    simp only [List.getElem_map, List.getElem_range]
    rw [List.getD_eq_getElem l d (by simpa using h2)]

lemma map_div_flatMap (samples : List Int) :
    List.map (fun s => s / 32768) (samples.flatMap fun a => ([(a : ℚ)] : List ℚ))
      = samples.map (fun s : Int => (s : ℚ) / 32768) := by
  induction samples with
  | nil => rfl
  | cons x xs ih => simp only [List.flatMap_cons, List.map_cons, List.map_append,
      List.singleton_append, ih, List.map_nil, List.nil_append]

lemma extractSamples_createWavBuffer (samples : List Int)
    (hrange : ∀ s ∈ samples, -32768 ≤ s ∧ s < 32768)
    (hsize : 2 * samples.length < 4294967296) :
    extractSamples (createWavBuffer samples 16000 1)
      = .ok (samples.map fun s : Int => (s : ℚ) / 32768) := by
  have hparse : parseWavHeader (createWavBuffer samples 16000 1)
      = .ok ⟨16000, 1, 16, 44, ((2 * samples.length : Nat) : Int)⟩ :=
    parseWavHeader_createHeader (2 * samples.length) 16000 1 16
      ((samples.map encodeInt16LE).flatten) hsize (encode_flatten_length samples)
      (by norm_num) (by norm_num) (by norm_num)
  rw [extractSamples, hparse, ok_bind]
  norm_num
  have hread : ∀ i ∈ List.range samples.length,
      readSample (createWavBuffer samples 16000 1) 44 16 i
        = .ok ((samples.getD i 0 : ℚ) / 32768) := by
    intro i hi
    have hi' : i < samples.length := List.mem_range.mp hi
    have hmem : samples.getD i 0 ∈ samples := by
      rw [List.getD_eq_getElem samples 0 hi']
      exact List.getElem_mem hi'
    obtain ⟨hs1, hs2⟩ := hrange _ hmem
    rw [readSample, if_pos rfl, getInt16_createWav samples 16000 1 i hi' hs1 hs2,
      ok_bind, pure_eq_ok]
  have hloop : List.mapM.loop (readSample (createWavBuffer samples 16000 1) 44 16)
        (List.range samples.length) []
      = (List.range samples.length).mapM
          (readSample (createWavBuffer samples 16000 1) 44 16) := rfl
  rw [hloop, list_mapM_ok (List.range samples.length) _
    (fun i => ((samples.getD i 0 : ℚ) / 32768)) hread]
  rw [map_range_getD samples 0 (fun s : Int => (s : ℚ) / 32768)]

/-- C3: encoding a list of 16-bit signed mono samples with
`WavUtils.createWavBuffer` and decoding the result with `extractSamples`
reproduces every sample bit-identically: the decoded values are exactly the
original integers scaled by `1 / 32768`. The two hypotheses state that the
inputs are genuine 16-bit samples and that the payload fits the 32-bit size
fields of the container, as any real `Int16Array` satisfies. -/
theorem createWavBuffer_extractSamples_roundtrip (samples : List Int)
    (hrange : ∀ s ∈ samples, -32768 ≤ s ∧ s < 32768)
    (hsize : 2 * samples.length < 4294967296) :
    extractSamples (createWavBuffer samples 16000 1)
      = .ok (samples.map fun s : Int => (s : ℚ) / 32768) :=
  extractSamples_createWavBuffer samples hrange hsize

end WavCodec

namespace WavCodec

/-- Witness for `createWavBuffer_extractSamples_roundtrip` on a concrete
four-sample signal covering both extremes of the 16-bit range. -/
theorem createWavBuffer_extractSamples_roundtrip_witness :
    (∀ s ∈ ([100, -32768, 32767, 0] : List Int), -32768 ≤ s ∧ s < 32768) ∧
    2 * ([100, -32768, 32767, 0] : List Int).length < 4294967296 ∧
    extractSamples (createWavBuffer [100, -32768, 32767, 0] 16000 1)
      = .ok (([100, -32768, 32767, 0] : List Int).map fun s : Int => (s : ℚ) / 32768) := by
  have h1 : ∀ s ∈ ([100, -32768, 32767, 0] : List Int), -32768 ≤ s ∧ s < 32768 := by
    decide
  have h2 : 2 * ([100, -32768, 32767, 0] : List Int).length < 4294967296 := by
    decide
  exact ⟨h1, h2, createWavBuffer_extractSamples_roundtrip _ h1 h2⟩

end WavCodec

namespace LatencyMeasurer

/-- Ascending numeric sort, the model of `[...values].sort((a, b) => a - b)`. -/
def sortedAsc (values : List ℚ) : List ℚ :=
  values.insertionSort (· ≤ ·)

/-- The statistic summary record of `calculateStats`; the standard deviation
is real-valued because the source takes a square root. -/
structure StatsSummary where
  min : ℚ
  max : ℚ
  mean : ℚ
  median : ℚ
  p95 : ℚ
  p99 : ℚ
  stdDev : ℝ

/-- `calculateStats(values)`: zero record on empty input, otherwise order
statistics on the ascending-sorted copy — in particular
`p95 = sorted[Math.floor(sorted.length * 0.95)]` and likewise for `p99` —
plus mean and population standard deviation. -/
noncomputable def calculateStats (values : List ℚ) : StatsSummary :=
  if values.length = 0 then ⟨0, 0, 0, 0, 0, 0, 0⟩
  else
    let sorted := sortedAsc values
    let mean : ℚ := values.sum / values.length
    { min := sorted.getD 0 0,
      max := sorted.getD (sorted.length - 1) 0,
      mean := mean,
      median := sorted.getD (sorted.length / 2) 0,
      p95 := sorted.getD ((⌊(sorted.length : ℚ) * (95 / 100)⌋).toNat) 0,
      p99 := sorted.getD ((⌊(sorted.length : ℚ) * (99 / 100)⌋).toNat) 0,
      stdDev := Real.sqrt
        (((values.map fun v => (((v - mean : ℚ) : ℝ)) ^ 2).sum) / values.length) }

/-- The index formula stated by the design: `floor(n × p / 100)` into the
ascending-sorted sample array. -/
def specPercentileIdx (n : Nat) (p : ℚ) : Nat :=
  (⌊(n : ℚ) * p / 100⌋).toNat

/-- One timing mark of the measurer. -/
structure LatencyMark where
  name : String
  timestamp : ℚ
deriving DecidableEq

/-- The mutable `currentMeasurement` record of the measurer. -/
structure CurrentMeasurement where
  marks : List LatencyMark
  startTime : ℚ
  firstByteTime : Option ℚ
  audioInputDuration : Option ℚ
deriving DecidableEq

/-- The observable state of a `LatencyMeasurer`: the single mutable current
measurement slot, plus the log of `console.warn` calls (the only error-like
channel the class has). -/
structure MeasurerState where
  currentMeasurement : Option CurrentMeasurement
  warnings : List String
deriving DecidableEq

/-- `LatencyMeasurer.mark(name)` at instant `now`: warns when no measurement
is open, otherwise appends the mark and tracks the first-byte timestamp. -/
def mark (st : MeasurerState) (now : ℚ) (name : String) : MeasurerState :=
  match st.currentMeasurement with
  | none =>
      { st with warnings :=
          st.warnings ++ ["No active measurement. Call startMeasurement first."] }
  | some m =>
      let m1 := { m with marks := m.marks ++ [⟨name, now⟩] }
      let m2 := if name = "first_byte" ∨ name = "first_audio_chunk" then
          { m1 with firstByteTime := some now }
        else m1
      { st with currentMeasurement := some m2 }

/-- `LatencyMeasurer.startMeasurement(audioInputDurationMs)` at instant
`now`: unconditionally installs a fresh current measurement and records the
`start` mark. There is no check whether a measurement is already open. -/
def startMeasurement (st : MeasurerState) (now : ℚ)
    (audioInputDurationMs : Option ℚ) : MeasurerState :=
  mark
    { st with
      currentMeasurement := some
        { marks := [], startTime := now, firstByteTime := none,
          audioInputDuration := audioInputDurationMs } }
    now "start"

/-- C9: the code does not reject a re-entrant `startMeasurement` — calling it
while a measurement is open silently discards the open measurement, installs
a fresh one and emits no warning or error, contradicting the claim (and the
design text) that a second open surfaces an error immediately. -/
theorem startMeasurement_silently_overwrites :
    (startMeasurement { currentMeasurement := none, warnings := [] } 1
        none).currentMeasurement
      = some { marks := [⟨"start", 1⟩], startTime := 1, firstByteTime := none,
               audioInputDuration := none } ∧
    (startMeasurement
        (startMeasurement { currentMeasurement := none, warnings := [] } 1 none)
        2 none).currentMeasurement
      = some { marks := [⟨"start", 2⟩], startTime := 2, firstByteTime := none,
               audioInputDuration := none } ∧
    (startMeasurement
        (startMeasurement { currentMeasurement := none, warnings := [] } 1 none)
        2 none).warnings = [] := by
  refine ⟨?_, ?_, ?_⟩ <;> simp [startMeasurement, mark]

end LatencyMeasurer

namespace ConversationRunner

/-- Turn roles of a conversation manifest. -/
inductive Role
  | user
  | agent
deriving DecidableEq

/-- A turn of a conversation fixture. -/
structure ConversationTurn where
  role : Role
  audioFile : String
  transcript : String
  delayBeforeMs : Option ℚ
  isInterruption : Option Bool
  contextRequired : Option (List String)
deriving DecidableEq

/-- The interaction events a single turn performs against the pipeline under
test: one `processCall` when the turn audio is handed to
`Pipeline.process()`, one `pullNext` per `next()` call on the output
iterator, and one `interruptCall` per `Pipeline.interrupt()` invocation. -/
inductive PipelineEvent
  | processCall (turn : ConversationTurn)
  | pullNext
  | interruptCall
deriving DecidableEq

/-- Per-turn outcome record (timing fields are omitted: no claim refers to
wall-clock values). `wasInterrupted` is `some true` only in the interruption
branch, mirroring the source leaving the field undefined otherwise. -/
structure TurnResult where
  turn : ConversationTurn
  outputAudio : Option (List Nat)
  wasInterrupted : Option Bool
deriving DecidableEq

/-- `concatenateBuffers`: byte-wise concatenation of the output chunks. -/
def concatenateBuffers (buffers : List (List Nat)) : List Nat :=
  buffers.flatten

/-- `ConversationRunner.processTurn`, with the asynchronous pipeline
abstracted by the chunk list its output iterator would yield. The
interruption branch pulls exactly one element and then interrupts; the
normal branch drains the whole output (its length-plus-one `next()` calls
counting the final done signal) and concatenates it. -/
def processTurn (turn : ConversationTurn) (outputs : List (List Nat)) :
    TurnResult × List PipelineEvent :=
  if turn.isInterruption.getD false then
    ({ turn := turn, outputAudio := none, wasInterrupted := some true },
      [.processCall turn, .pullNext, .interruptCall])
  else
    ({ turn := turn,
       outputAudio :=
         if 0 < outputs.length then some (concatenateBuffers outputs) else none,
       wasInterrupted := none },
      .processCall turn :: List.replicate (outputs.length + 1) .pullNext)

/-- `ConversationRunner.runConversation` restricted to what the claims
observe: iterate the manifest turns in order, process only `user` turns
(agent turns are skipped entirely), collect the per-turn results in order
and log every pipeline interaction. The pipeline under test is abstracted by
the response it would stream for each turn. -/
def runConversation (turns : List ConversationTurn)
    (pipe : ConversationTurn → List (List Nat)) :
    List TurnResult × List PipelineEvent :=
  match turns with
  | [] => ([], [])
  | turn :: rest =>
    let tail := runConversation rest pipe
    if turn.role = .user then
      ((processTurn turn (pipe turn)).1 :: tail.1,
        (processTurn turn (pipe turn)).2 ++ tail.2)
    else tail

/-- C5: for an interruption-flagged turn the event trace is exactly one
`process` call, then exactly one pull of the output iterator, then exactly
one `interrupt()` call — nothing is drained after the interrupt — and the
result is marked interrupted. -/
theorem processTurn_interrupt_pulls_once (turn : ConversationTurn)
    (outputs : List (List Nat)) (h : turn.isInterruption.getD false = true) :
    (processTurn turn outputs).2 = [.processCall turn, .pullNext, .interruptCall] ∧
    (processTurn turn outputs).2.count .pullNext = 1 ∧
    (processTurn turn outputs).2.count .interruptCall = 1 ∧
    (processTurn turn outputs).1.wasInterrupted = some true := by
  refine ⟨?_, ?_, ?_, ?_⟩ <;> simp [processTurn, h, List.count_cons]

/-- Witness for `processTurn_interrupt_pulls_once` on a concrete
interruption turn with a two-chunk pipeline response. -/
theorem processTurn_interrupt_pulls_once_witness :
    (⟨.user, "a.wav", "hi", none, some true, none⟩ :
        ConversationTurn).isInterruption.getD false = true ∧
    (processTurn ⟨.user, "a.wav", "hi", none, some true, none⟩
        [[1], [2]]).2
      = [.processCall ⟨.user, "a.wav", "hi", none, some true, none⟩,
         .pullNext, .interruptCall] ∧
    (processTurn ⟨.user, "a.wav", "hi", none, some true, none⟩
        [[1], [2]]).1.wasInterrupted = some true := by
  have h : (⟨.user, "a.wav", "hi", none, some true, none⟩ :
      ConversationTurn).isInterruption.getD false = true := rfl
  have hmain := processTurn_interrupt_pulls_once
    ⟨.user, "a.wav", "hi", none, some true, none⟩ [[1], [2]] h
  exact ⟨h, hmain.1, hmain.2.2.2⟩

/-- C6: the result list of `runConversation` is exactly the user turns of
the manifest in manifest order (so results preserve manifest order), and
every turn ever passed to `Pipeline.process()` has the `user` role — agent
turns are never streamed into the pipeline. -/
theorem runConversation_order_user_only (turns : List ConversationTurn)
    (pipe : ConversationTurn → List (List Nat)) :
    (runConversation turns pipe).1.map (fun r => r.turn)
      = turns.filter (fun t => decide (t.role = .user)) ∧
    ∀ t : ConversationTurn,
      .processCall t ∈ (runConversation turns pipe).2 → t.role = .user := by
  induction turns with
  | nil => exact ⟨rfl, fun t ht => absurd ht (by simp [runConversation])⟩
  | cons turn rest ih =>
    have hturn : ∀ outs, (processTurn turn outs).1.turn = turn := by
      intro outs
      by_cases hint : turn.isInterruption.getD false = true <;>
        simp [processTurn, hint]
    have hproc : ∀ outs t,
        PipelineEvent.processCall t ∈ (processTurn turn outs).2 → t = turn := by
      intro outs t ht
      by_cases hint : turn.isInterruption.getD false = true <;>
        simp [processTurn, hint] at ht <;> tauto
    by_cases hrole : turn.role = Role.user
    · refine ⟨?_, ?_⟩
      · simp [runConversation, hrole, ih.1, List.filter_cons, hturn]
      · intro t ht
        simp only [runConversation, hrole, if_pos, List.mem_append] at ht
        rcases ht with ht | ht
        · rw [hproc _ t ht]
          exact hrole
        · exact ih.2 t ht
    · refine ⟨?_, ?_⟩
      · simp [runConversation, hrole, ih.1, List.filter_cons]
      · intro t ht
        simp only [runConversation, hrole, if_neg] at ht
        exact ih.2 t ht

/-- `percentile(values, p)` of the conversation runner: nearest-rank on the
ascending-sorted array via `Math.ceil((p / 100) * n) - 1`, clamped below at
index zero. -/
def percentile (values : List ℚ) (p : ℚ) : ℚ :=
  if values.length = 0 then 0
  else
    (LatencyMeasurer.sortedAsc values).getD
      (max 0 (⌈(p / 100) * ((LatencyMeasurer.sortedAsc values).length : ℚ)⌉ - 1)).toNat 0

end ConversationRunner

namespace ConversationRunner

/-- C7 (amended): the two percentile implementations of the harness use two
different index formulas on the ascending-sorted sample array — the latency
measurer statistics use the design index `floor(n × p / 100)` for p95/p99,
while the conversation runner helper uses the nearest-rank index
`max(0, ceil((p / 100) × n) − 1)` — and the two agree on the design example:
for the ten samples `[10, 20, …, 100]` both report p95 = 100. -/
theorem percentile_index_formulas (values : List ℚ) (p : ℚ) (hne : values ≠ []) :
    (LatencyMeasurer.calculateStats values).p95
      = (LatencyMeasurer.sortedAsc values).getD
          (LatencyMeasurer.specPercentileIdx values.length 95) 0 ∧
    (LatencyMeasurer.calculateStats values).p99
      = (LatencyMeasurer.sortedAsc values).getD
          (LatencyMeasurer.specPercentileIdx values.length 99) 0 ∧
    percentile values p
      = (LatencyMeasurer.sortedAsc values).getD
          (max 0 (⌈(p / 100) * (values.length : ℚ)⌉ - 1)).toNat 0 ∧
    (values = [10, 20, 30, 40, 50, 60, 70, 80, 90, 100] →
      (LatencyMeasurer.calculateStats values).p95 = 100 ∧
      percentile values 95 = 100) := by
  have hlen0 : values.length ≠ 0 := fun h => hne (List.length_eq_zero.mp h)
  have hslen : (LatencyMeasurer.sortedAsc values).length = values.length := by
    simp [LatencyMeasurer.sortedAsc, List.length_insertionSort]
  have hp95 : (LatencyMeasurer.calculateStats values).p95
      = (LatencyMeasurer.sortedAsc values).getD
          (LatencyMeasurer.specPercentileIdx values.length 95) 0 := by
    rw [LatencyMeasurer.calculateStats, if_neg hlen0]
    simp only [LatencyMeasurer.specPercentileIdx, hslen]
    rw [mul_div_assoc]
  have hp99 : (LatencyMeasurer.calculateStats values).p99
      = (LatencyMeasurer.sortedAsc values).getD
          (LatencyMeasurer.specPercentileIdx values.length 99) 0 := by
    rw [LatencyMeasurer.calculateStats, if_neg hlen0]
    simp only [LatencyMeasurer.specPercentileIdx, hslen]
    rw [mul_div_assoc]
  have hpct : percentile values p
      = (LatencyMeasurer.sortedAsc values).getD
          (max 0 (⌈(p / 100) * (values.length : ℚ)⌉ - 1)).toNat 0 := by
    rw [percentile, if_neg hlen0, hslen]
  refine ⟨hp95, hp99, hpct, ?_⟩
  intro hv
  subst hv
  have hsorted : LatencyMeasurer.sortedAsc [10, 20, 30, 40, 50, 60, 70, 80, 90, 100]
      = [10, 20, 30, 40, 50, 60, 70, 80, 90, 100] := by
    norm_num [LatencyMeasurer.sortedAsc, List.insertionSort, List.orderedInsert]
  constructor
  · rw [hp95, hsorted]
    have hidx : LatencyMeasurer.specPercentileIdx
        ([10, 20, 30, 40, 50, 60, 70, 80, 90, 100] : List ℚ).length 95 = 9 := by
      norm_num [LatencyMeasurer.specPercentileIdx]
      rfl
    rw [hidx]
    norm_num
  · rw [percentile, if_neg hlen0, hslen, hsorted]
    have hidx : (max 0 (⌈((95 : ℚ) / 100) *
        (([10, 20, 30, 40, 50, 60, 70, 80, 90, 100] : List ℚ).length : ℚ)⌉ - 1)).toNat
        = 9 := by
      norm_num
      rw [show ⌈(19 : ℚ) / 2⌉ = 10 from by norm_num [Int.ceil_eq_iff]]
      rfl
    rw [hidx]
    norm_num

/-- Witness for `percentile_index_formulas` at the design example
`[10, 20, …, 100]` with p = 95: both implementations report 100. -/
theorem percentile_index_formulas_witness :
    ([10, 20, 30, 40, 50, 60, 70, 80, 90, 100] : List ℚ) ≠ [] ∧
    (LatencyMeasurer.calculateStats
        [10, 20, 30, 40, 50, 60, 70, 80, 90, 100]).p95 = 100 ∧
    percentile [10, 20, 30, 40, 50, 60, 70, 80, 90, 100] 95 = 100 := by
  have hne : ([10, 20, 30, 40, 50, 60, 70, 80, 90, 100] : List ℚ) ≠ [] := by simp
  have h := (percentile_index_formulas
    [10, 20, 30, 40, 50, 60, 70, 80, 90, 100] 95 hne).2.2.2 rfl
  exact ⟨hne, h.1, h.2⟩

/-- C7 counterexample: on the two samples `[10, 20]` at p = 50 the runner
helper returns `sorted[ceil(1) − 1] = sorted[0] = 10`, while the element at
the design index `floor(2 × 50 / 100) = 1` is 20 — so the claim that every
percentile computation in the harness returns the element at
`floor(n × p / 100)` is false. -/
theorem percentile_not_floor_formula :
    percentile [10, 20] 50
      ≠ (LatencyMeasurer.sortedAsc [10, 20]).getD
          (LatencyMeasurer.specPercentileIdx 2 50) 0 := by
  have hsorted : LatencyMeasurer.sortedAsc [10, 20] = [10, 20] := by
    norm_num [LatencyMeasurer.sortedAsc, List.insertionSort, List.orderedInsert]
  have h1 : percentile [10, 20] 50 = 10 := by
    rw [percentile, if_neg (by norm_num), hsorted]
    have hidx : (max 0 (⌈((50 : ℚ) / 100) * ((2 : Nat) : ℚ)⌉ - 1)).toNat = 0 := by
      norm_num
    simp only [List.length_cons, List.length_nil]
    norm_num
  have h2 : (LatencyMeasurer.sortedAsc [10, 20]).getD
      (LatencyMeasurer.specPercentileIdx 2 50) 0 = 20 := by
    rw [hsorted]
    have hidx : LatencyMeasurer.specPercentileIdx 2 50 = 1 := by
      norm_num [LatencyMeasurer.specPercentileIdx]
    rw [hidx]
    norm_num
  rw [h1, h2]
  norm_num

end ConversationRunner

namespace AudioComparator

/-- Options of `AudioComparator.compare`; defaults in the source are
threshold 0.8, duration variance 0.1, spectral analysis off, 16 kHz. -/
structure ComparisonOptions where
  similarityThreshold : ℝ
  allowDurationVariance : ℝ
  useSpectralAnalysis : Bool
  sampleRate : ℝ

/-- Result record of `compare`. The pass flag is the conjunction the source
computes; metrics mirror the `metrics` object. -/
structure ComparisonResult where
  similarity : ℝ
  pass : Prop
  rmseDifference : ℝ
  correlationCoefficient : ℝ
  durationDifferenceMs : ℝ
  spectralSimilarity : Option ℝ

/-- `calculateRMSE(a, b)`: root of the mean squared sample-wise difference
over the overlapping prefix (the shorter length; no zero-padding). -/
noncomputable def calculateRMSE (a b : List ℝ) : ℝ :=
  let minLength := min a.length b.length
  Real.sqrt ((((a.zip b).map fun p => (p.1 - p.2) ^ 2).sum) / minLength)

/-- `calculateCorrelation(a, b)`: Pearson correlation over the overlapping
prefix, returning 0 when either variance vanishes (zero denominator). -/
noncomputable def calculateCorrelation (a b : List ℝ) : ℝ :=
  let n := min a.length b.length
  let a' := a.take n
  let b' := b.take n
  let meanA := a'.sum / n
  let meanB := b'.sum / n
  let sumProduct := ((a'.zip b').map fun p => (p.1 - meanA) * (p.2 - meanB)).sum
  let sumSqA := (a'.map fun x => (x - meanA) ^ 2).sum
  let sumSqB := (b'.map fun x => (x - meanB) ^ 2).sum
  let denominator := Real.sqrt (sumSqA * sumSqB)
  if denominator = 0 then 0 else sumProduct / denominator

/-- One magnitude-spectrum bin contribution of a window: the absolute value
of the direct DFT sum at frequency `k`. -/
noncomputable def windowMagnitude (samples : List ℝ) (offset k windowSize : Nat) : ℝ :=
  let real := ((List.range windowSize).map fun n =>
    samples.getD (offset + n) 0 * Real.cos (2 * Real.pi * k * n / windowSize)).sum
  let imag := -((List.range windowSize).map fun n =>
    samples.getD (offset + n) 0 * Real.sin (2 * Real.pi * k * n / windowSize)).sum
  Real.sqrt (real ^ 2 + imag ^ 2)

/-- `calculateSpectralEnergy(samples, windowSize)`: accumulate the per-window
magnitude spectra over all full windows, then min-max normalize by the peak
when it is positive. -/
noncomputable def calculateSpectralEnergy (samples : List ℝ)
    (windowSize : Nat := 1024) : List ℝ :=
  let numWindows := samples.length / windowSize
  let energy := (List.range (windowSize / 2)).map fun k =>
    ((List.range numWindows).map fun w =>
      windowMagnitude samples (w * windowSize) k windowSize).sum
  let maxEnergy := energy.foldr max 0
  if 0 < maxEnergy then energy.map (· / maxEnergy) else energy

/-- `AudioComparator.compare(audioA, audioB, options)`: decode both buffers,
compute duration, RMSE, correlation and optional spectral metrics, and blend
them with the fixed weights 0.5 / 0.3 / 0.2 (and 0.7 / 0.3 against the
spectral similarity when enabled). Decoding failures propagate as thrown
errors, as in the source. -/
noncomputable def compare (audioA audioB : List Nat) (options : ComparisonOptions) :
    Except WavCodec.WavError ComparisonResult := do
  let samplesAq ← WavCodec.extractSamples audioA
  let samplesBq ← WavCodec.extractSamples audioB
  let samplesA : List ℝ := samplesAq.map fun q : ℚ => (q : ℝ)
  let samplesB : List ℝ := samplesBq.map fun q : ℚ => (q : ℝ)
  let durationA : ℝ := samplesA.length / options.sampleRate * 1000
  let durationB : ℝ := samplesB.length / options.sampleRate * 1000
  let durationDifferenceMs := |durationA - durationB|
  let durationVariance := durationDifferenceMs / max durationA durationB
  let rmseDifference := calculateRMSE samplesA samplesB
  let correlationCoefficient := calculateCorrelation samplesA samplesB
  let spectralSimilarity : Option ℝ :=
    if options.useSpectralAnalysis then
      some (calculateCorrelation (calculateSpectralEnergy samplesA)
        (calculateSpectralEnergy samplesB))
    else none
  let rmseScore := max 0 (1 - rmseDifference * 2)
  let durationScore := 1 - min 1 (durationVariance / options.allowDurationVariance)
  let base := (max 0 correlationCoefficient * 0.5 + rmseScore * 0.3 +
    durationScore * 0.2) / (0.5 + 0.3 + 0.2)
  let similarity :=
    match spectralSimilarity with
    | some sp => base * 0.7 + max 0 sp * 0.3
    | none => base
  pure
    { similarity := similarity,
      pass := similarity ≥ options.similarityThreshold ∧
        durationVariance ≤ options.allowDurationVariance,
      rmseDifference := rmseDifference,
      correlationCoefficient := correlationCoefficient,
      durationDifferenceMs := durationDifferenceMs,
      spectralSimilarity := spectralSimilarity }

end AudioComparator

namespace AudioComparator

lemma map_sum_eq_range (l : List ℝ) (f : ℝ → ℝ) :
    (l.map f).sum = ∑ i ∈ Finset.range l.length, f (l.getD i 0) := by
  induction l with
  | nil => simp
  | cons x xs ih =>
    rw [List.map_cons, List.sum_cons, ih, List.length_cons, Finset.sum_range_succ']
    simp [add_comm]

lemma zip_map_sum_eq_range (f : ℝ → ℝ → ℝ) :
    ∀ (a b : List ℝ),
      ((a.zip b).map fun p => f p.1 p.2).sum
        = ∑ i ∈ Finset.range (min a.length b.length), f (a.getD i 0) (b.getD i 0) := by
  intro a
  induction a with
  | nil => intro b; simp
  | cons x xs ih =>
    intro b
    cases b with
    | nil => simp
    | cons y ys =>
      rw [List.zip_cons_cons, List.map_cons, List.sum_cons, ih, List.length_cons,
        List.length_cons, Nat.succ_min_succ, Finset.sum_range_succ']
      simp [add_comm]

lemma calculateCorrelation_le_one (a b : List ℝ) : calculateCorrelation a b ≤ 1 := by
  rw [calculateCorrelation]
  set n := min a.length b.length with hn
  set meanA := (a.take n).sum / (n : ℝ) with hmA
  set meanB := (b.take n).sum / (n : ℝ) with hmB
  set sumProduct := (((a.take n).zip (b.take n)).map
    fun p => (p.1 - meanA) * (p.2 - meanB)).sum with hsp
  set sumSqA := ((a.take n).map fun x => (x - meanA) ^ 2).sum with hsa
  set sumSqB := ((b.take n).map fun x => (x - meanB) ^ 2).sum with hsb
  by_cases hd : Real.sqrt (sumSqA * sumSqB) = 0
  · rw [if_pos hd]; norm_num
  · rw [if_neg hd]
    have hdpos : 0 < Real.sqrt (sumSqA * sumSqB) :=
      lt_of_le_of_ne (Real.sqrt_nonneg _) (Ne.symm hd)
    rw [div_le_one hdpos]
    have hmin : min (a.take n).length (b.take n).length = n := by
      simp [List.length_take]
      omega
    have hspr : sumProduct = ∑ i ∈ Finset.range n,
        ((a.take n).getD i 0 - meanA) * ((b.take n).getD i 0 - meanB) := by
      rw [hsp, zip_map_sum_eq_range (fun x y => (x - meanA) * (y - meanB)),
        hmin]
    have hsar : sumSqA = ∑ i ∈ Finset.range n, ((a.take n).getD i 0 - meanA) ^ 2 := by
      rw [hsa, map_sum_eq_range]
      have hlen : (a.take n).length = n := by
        simp [List.length_take]
        omega
      rw [hlen]
    have hsbr : sumSqB = ∑ i ∈ Finset.range n, ((b.take n).getD i 0 - meanB) ^ 2 := by
      rw [hsb, map_sum_eq_range]
      have hlen : (b.take n).length = n := by
        simp [List.length_take]
        omega
      rw [hlen]
    have hcs : sumProduct ^ 2 ≤ sumSqA * sumSqB := by
      rw [hspr, hsar, hsbr]
      exact Finset.sum_mul_sq_le_sq_mul_sq (Finset.range n)
        (fun i => (a.take n).getD i 0 - meanA) (fun i => (b.take n).getD i 0 - meanB)
    calc sumProduct ≤ |sumProduct| := le_abs_self _
      _ = Real.sqrt (sumProduct ^ 2) := (Real.sqrt_sq_eq_abs _).symm
      _ ≤ Real.sqrt (sumSqA * sumSqB) := Real.sqrt_le_sqrt hcs

end AudioComparator

namespace AudioComparator

lemma base_similarity_bounds (corr rmse durVar allow : ℝ)
    (hcorr : corr ≤ 1) (hrmse : 0 ≤ rmse) (hdv : 0 ≤ durVar) (hallow : 0 < allow) :
    0 ≤ (max 0 corr * 0.5 + max 0 (1 - rmse * 2) * 0.3 +
        (1 - min 1 (durVar / allow)) * 0.2) / (0.5 + 0.3 + 0.2) ∧
      (max 0 corr * 0.5 + max 0 (1 - rmse * 2) * 0.3 +
        (1 - min 1 (durVar / allow)) * 0.2) / (0.5 + 0.3 + 0.2) ≤ 1 := by
  have h1 : 0 ≤ max 0 corr := le_max_left 0 corr
  have h2 : max 0 corr ≤ 1 := max_le (by norm_num) hcorr
  have h3 : 0 ≤ max 0 (1 - rmse * 2) := le_max_left 0 _
  have h4 : max 0 (1 - rmse * 2) ≤ 1 := max_le (by norm_num) (by nlinarith)
  have h5 : 0 ≤ durVar / allow := div_nonneg hdv hallow.le
  have h6 : 0 ≤ 1 - min 1 (durVar / allow) := by
    have := min_le_left 1 (durVar / allow)
    linarith
  have h7 : 1 - min 1 (durVar / allow) ≤ 1 := by
    have : (0 : ℝ) ≤ min 1 (durVar / allow) := le_min (by norm_num) h5
    linarith
  have hw : (0.5 + 0.3 + 0.2 : ℝ) = 1 := by norm_num
  rw [hw, div_one]
  constructor <;> nlinarith

/-- C8 (amended): whenever both buffers decode to non-empty sample arrays
and the duration-variance tolerance and sample rate options are positive (as
the defaults are), the similarity score of `compare` lies in `[0, 1]`, with
or without spectral analysis. Empty decodes or non-positive options escape
the bound (see the counterexample). -/
theorem compare_similarity_unit_interval (audioA audioB : List Nat)
    (opts : ComparisonOptions) (sa sb : List ℚ)
    (hA : WavCodec.extractSamples audioA = .ok sa)
    (hB : WavCodec.extractSamples audioB = .ok sb)
    (hsa : sa ≠ []) (hsb : sb ≠ [])
    (hvar : 0 < opts.allowDurationVariance)
    (hrate : 0 < opts.sampleRate) :
    ∃ r, compare audioA audioB opts = .ok r ∧
      0 ≤ r.similarity ∧ r.similarity ≤ 1 := by
  rw [compare, hA, WavCodec.ok_bind, hB, WavCodec.ok_bind]
  refine ⟨_, rfl, ?_⟩
  have hlenA : 0 < ((sa.map fun q : ℚ => (q : ℝ)).length : ℝ) := by
    have h0 : sa.length ≠ 0 := fun h => hsa (List.length_eq_zero.mp h)
    simp only [List.length_map]
    exact_mod_cast Nat.pos_of_ne_zero h0
  have hlenB : 0 < ((sb.map fun q : ℚ => (q : ℝ)).length : ℝ) := by
    have h0 : sb.length ≠ 0 := fun h => hsb (List.length_eq_zero.mp h)
    simp only [List.length_map]
    exact_mod_cast Nat.pos_of_ne_zero h0
  have hdA : 0 < ((sa.map fun q : ℚ => (q : ℝ)).length : ℝ) / opts.sampleRate * 1000 := by
    positivity
  have hdB : 0 < ((sb.map fun q : ℚ => (q : ℝ)).length : ℝ) / opts.sampleRate * 1000 := by
    positivity
  have hdmax : 0 < max (((sa.map fun q : ℚ => (q : ℝ)).length : ℝ) / opts.sampleRate * 1000)
      (((sb.map fun q : ℚ => (q : ℝ)).length : ℝ) / opts.sampleRate * 1000) :=
    lt_max_of_lt_left hdA
  have hdv : 0 ≤ |((sa.map fun q : ℚ => (q : ℝ)).length : ℝ) / opts.sampleRate * 1000 -
        ((sb.map fun q : ℚ => (q : ℝ)).length : ℝ) / opts.sampleRate * 1000| /
      max (((sa.map fun q : ℚ => (q : ℝ)).length : ℝ) / opts.sampleRate * 1000)
        (((sb.map fun q : ℚ => (q : ℝ)).length : ℝ) / opts.sampleRate * 1000) :=
    div_nonneg (abs_nonneg _) hdmax.le
  have hcorr := calculateCorrelation_le_one (sa.map fun q : ℚ => (q : ℝ))
    (sb.map fun q : ℚ => (q : ℝ))
  have hrmse : 0 ≤ calculateRMSE (sa.map fun q : ℚ => (q : ℝ))
      (sb.map fun q : ℚ => (q : ℝ)) := Real.sqrt_nonneg _
  have hbase := base_similarity_bounds
    (calculateCorrelation (sa.map fun q : ℚ => (q : ℝ)) (sb.map fun q : ℚ => (q : ℝ)))
    (calculateRMSE (sa.map fun q : ℚ => (q : ℝ)) (sb.map fun q : ℚ => (q : ℝ)))
    (|((sa.map fun q : ℚ => (q : ℝ)).length : ℝ) / opts.sampleRate * 1000 -
        ((sb.map fun q : ℚ => (q : ℝ)).length : ℝ) / opts.sampleRate * 1000| /
      max (((sa.map fun q : ℚ => (q : ℝ)).length : ℝ) / opts.sampleRate * 1000)
        (((sb.map fun q : ℚ => (q : ℝ)).length : ℝ) / opts.sampleRate * 1000))
    opts.allowDurationVariance hcorr hrmse hdv hvar
  by_cases hspec : opts.useSpectralAnalysis
  · have hsp := calculateCorrelation_le_one
      (calculateSpectralEnergy (sa.map fun q : ℚ => (q : ℝ)))
      (calculateSpectralEnergy (sb.map fun q : ℚ => (q : ℝ)))
    simp only [hspec, if_pos]
    constructor
    · dsimp only
      nlinarith [hbase.1, hbase.2, le_max_left (0 : ℝ)
        (calculateCorrelation (calculateSpectralEnergy (sa.map fun q : ℚ => (q : ℝ)))
          (calculateSpectralEnergy (sb.map fun q : ℚ => (q : ℝ))))]
    · dsimp only
      have hsple : max 0 (calculateCorrelation
          (calculateSpectralEnergy (sa.map fun q : ℚ => (q : ℝ)))
          (calculateSpectralEnergy (sb.map fun q : ℚ => (q : ℝ)))) ≤ 1 :=
        max_le (by norm_num) hsp
      nlinarith [hbase.1, hbase.2, le_max_left (0 : ℝ)
        (calculateCorrelation (calculateSpectralEnergy (sa.map fun q : ℚ => (q : ℝ)))
          (calculateSpectralEnergy (sb.map fun q : ℚ => (q : ℝ))))]
  · simp only [hspec, if_neg, Bool.false_eq_true]
    exact hbase

end AudioComparator

namespace AudioComparator

/-- Witness for `compare_similarity_unit_interval` on two identical
one-sample buffers with default-like options and spectral analysis on. -/
theorem compare_similarity_unit_interval_witness :
    WavCodec.extractSamples (WavCodec.createWavBuffer [0] 16000 1) = .ok [0] ∧
    ([(0 : ℚ)] ≠ []) ∧ ((0 : ℝ) < 0.1) ∧ ((0 : ℝ) < 16000) ∧
    ∃ r, compare (WavCodec.createWavBuffer [0] 16000 1)
        (WavCodec.createWavBuffer [0] 16000 1)
        ⟨0.8, 0.1, true, 16000⟩ = .ok r ∧
      0 ≤ r.similarity ∧ r.similarity ≤ 1 := by
  have hdec : WavCodec.extractSamples (WavCodec.createWavBuffer [0] 16000 1)
      = .ok [0] := by
    have h := WavCodec.extractSamples_createWavBuffer [0] (by decide) (by decide)
    norm_num at h
    exact h
  exact ⟨hdec, by simp, by norm_num, by norm_num,
    compare_similarity_unit_interval _ _ _ [0] [0] hdec hdec (by simp) (by simp)
      (by norm_num) (by norm_num)⟩

end AudioComparator

namespace AudioComparator

/-- C8 counterexample: with a negative `allowDurationVariance` option and two
valid buffers of different lengths, the duration score exceeds one and the
overall similarity reaches `5/3 > 1`, so the claim that the score lies in
`[0, 1]` for every option setting is false. -/
theorem compare_similarity_exceeds_one :
    ∃ r, compare (WavCodec.createWavBuffer [0, 16384] 16000 1)
        (WavCodec.createWavBuffer [0, 16384, 0] 16000 1)
        ⟨0.8, -(1 / 10), false, 16000⟩ = .ok r ∧
      1 < r.similarity := by
  have hdecA : WavCodec.extractSamples (WavCodec.createWavBuffer [0, 16384] 16000 1)
      = .ok [0, 1 / 2] := by
    have h := WavCodec.extractSamples_createWavBuffer [0, 16384] (by decide) (by decide)
    norm_num at h
    exact h
  have hdecB : WavCodec.extractSamples
      (WavCodec.createWavBuffer [0, 16384, 0] 16000 1) = .ok [0, 1 / 2, 0] := by
    have h := WavCodec.extractSamples_createWavBuffer [0, 16384, 0] (by decide)
      (by decide)
    norm_num at h
    exact h
  have hmapA : (([0, 1 / 2] : List ℚ).map fun q : ℚ => (q : ℝ))
      = ([0, 1 / 2] : List ℝ) := by norm_num
  have hmapB : (([0, 1 / 2, 0] : List ℚ).map fun q : ℚ => (q : ℝ))
      = ([0, 1 / 2, 0] : List ℝ) := by norm_num
  have hrmse : calculateRMSE ([0, 1 / 2] : List ℝ) ([0, 1 / 2, 0] : List ℝ) = 0 := by
    rw [calculateRMSE]
    norm_num [List.zip, List.zipWith]
  have hcorr : calculateCorrelation ([0, 1 / 2] : List ℝ) ([0, 1 / 2, 0] : List ℝ)
      = 1 := by
    rw [calculateCorrelation]
    norm_num [List.take, List.zip, List.zipWith]
    rw [show (64 : ℝ) = 8 ^ 2 from by norm_num,
      Real.sqrt_sq (by norm_num : (0 : ℝ) ≤ 8)]
    norm_num
  rw [compare, hdecA, WavCodec.ok_bind, hdecB, WavCodec.ok_bind]
  refine ⟨_, rfl, ?_⟩
  simp only [hmapA, hmapB, hrmse, hcorr]
  norm_num
  rw [abs_of_pos (by norm_num : (0 : ℝ) < 1 / 16)]
  rw [show ((1 : ℝ) / 16) / (3 / 16) / -(1 / 10) = -(10 / 3) from by norm_num]
  rw [min_eq_right (by norm_num : (-(10 / 3) : ℝ) ≤ 1)]
  norm_num

end AudioComparator
